import Mathlib

/-! docker-merge: the image merge engine

A shallow embedding of `pkg/dgit/merge/merge.go`.

The Go code talks to the outside world all the time: it parses references,
creates directories, runs `git` and `tar` as subprocesses, reads image layers
from the local daemon and loads the result back into it.  The embedding keeps
the control flow of every function of `merge.go` and makes the outside world an
explicit parameter (`World`): each external call is appended to a chronological
trace (`Run.trace`) and its answer is taken from the world, whose state is
threaded through.  Theorems quantified over every `World` therefore hold
whatever `git`, `tar`, the file system and the daemon answer.

For the claims that depend on what `git` does with trees (which content a merge
keeps, which paths a commit records, when creating a branch fails) a concrete
world `gitWorld` models the `git` working copy that the program drives.

Not recorded as operations: logging (`logrus`) and the `Close` calls on
streams and files, which influence neither the control flow nor a result; the
one `Close` that matters, `defer resp.Body.Close()` in `loadImg`, is modelled.
-/

namespace DockerMerge

/-! ## Errors and results -/

/-- Go `error` values, represented by their message text. -/
abbrev Error := String

/-- Go `errors.Wrap(err, label)`: the message of the wrapped error is the label,
a colon and the message of the cause. -/
def wrap (err : Error) (label : String) : Error := label ++ ": " ++ err

/-- How a Go function call ends: it returns normally (`ok`), returns a non-nil
`error`, or the goroutine panics at run time (`crash`). -/
inductive Outcome (α : Type) where
  | ok (a : α)
  | error (e : Error)
  | crash
  deriving DecidableEq, Repr

/-! ## Data -/

/-- Go `types.BlobInfo` as returned by `LayerInfos()`: digest and size. -/
structure LayerInfo where
  digest : String
  size : Nat
  deriving DecidableEq, Repr

/-- Go `types.ImageReference` of the daemon transport, for a named image:
the repository name and the tag. -/
structure ImageReference where
  repository : String
  tag : String
  deriving DecidableEq, Repr

/-- Go `a.DockerReference().Name()`: the repository name, without tag or digest. -/
def ImageReference.Name (a : ImageReference) : String := a.repository

/-- Go `name.Reference`, the parsed destination tag. -/
structure NameReference where
  text : String
  deriving DecidableEq, Repr

/-- Go `path.Join(a, b)` / `filepath.Join(a, b)` for two clean, non-empty
elements, which is how `merge.go` calls it. -/
def pathJoin (a b : String) : String := a ++ "/" ++ b

/-- The external operations `merge.go` performs. -/
inductive Op where
  /-- Call `name.ParseReference(tag)` -/
  | parseName (s : String)
  /-- Call `daemon.ParseReference(img)` -/
  | parseDaemonRef (s : String)
  /-- Call `ioutil.TempDir("", "")` -/
  | tempDir
  /-- Call `os.Mkdir(path, 0755)` -/
  | mkdir (path : String)
  /-- Call `client.NewEnvClient()` -/
  | newEnvClient
  /-- Call `os.MkdirAll(path, 0755)` -/
  | mkdirAll (path : String)
  /-- Call `git init`, run in `dir` -/
  | gitInit (dir : String)
  /-- Call `git commit --allow-empty -m msg`, run in `dir` -/
  | gitCommitAllowEmpty (dir : String) (msg : String)
  /-- Call `git checkout -b branch start`, run in `dir` -/
  | gitCheckoutNew (dir : String) (branch : String) (start : String)
  /-- Call `a.NewImage(&types.SystemContext{})` -/
  | newImage (a : ImageReference)
  /-- Call `a.NewImageSource(&types.SystemContext{})` -/
  | newImageSource (a : ImageReference)
  /-- Call `baseImgSrc.GetBlob(li)` -/
  | getBlob (li : LayerInfo)
  /-- Call `os.Create(path)` -/
  | createFile (path : String)
  /-- Call `io.Copy(f, b)`: the blob of `li` is written to the file at `path` -/
  | copyBlob (li : LayerInfo) (path : String)
  /-- Call `tar -xvf archive -C dest` -/
  | tarExtract (archive : String) (dest : String)
  /-- Call `git add -A`, run in `dir` -/
  | gitAddAll (dir : String)
  /-- Call `git commit -am msg --date ... --author ...`, run in `dir` -/
  | gitCommit (dir : String) (msg : String)
  /-- Call `git checkout branch`, run in `dir` -/
  | gitCheckout (dir : String) (branch : String)
  /-- Call `git merge branch -X option`, run in `dir` -/
  | gitMerge (dir : String) (branch : String) (option : String)
  /-- Call `tar --exclude exclude -C dir -zcvf out .`, run in `dir` -/
  | tarCreate (dir : String) (exclude : String) (out : String)
  /-- Call `tarball.LayerFromFile(path)` -/
  | layerFromFile (path : String)
  /-- Call `mutate.AppendLayers(empty.Image, layer)` -/
  | appendLayers
  /-- Call `img.ConfigFile()` -/
  | configFile
  /-- Call `mutate.Config(img, newConfig.Config)` after `newConfig.Architecture = arch` -/
  | mutateConfig (arch : String)
  /-- Call `tarball.WriteToFile(path, tag, img)` -/
  | writeToFile (path : String) (tag : NameReference)
  /-- Call `os.Open(path)` -/
  | openFile (path : String)
  /-- Call `cli.ImageLoad(ctx, r, true)` on the file opened at `path` -/
  | imageLoad (path : String)
  /-- Call `os.RemoveAll(path)` -/
  | removeAll (path : String)
  deriving DecidableEq, Repr

/-- The outside world seen from `merge.go`, with state `σ`.
The two parsers are pure functions of the string.  `run` answers every call
that returns only an `error`; `out` is the combined output a command prints.
`imageLoad` answers with whether the response carries a body, and the error. -/
structure World (σ : Type) where
  parseName : String → Except Error NameReference
  parseDaemonRef : String → Except Error ImageReference
  tempDir : σ → Except Error String × σ
  newImage : ImageReference → σ → Except Error (List LayerInfo) × σ
  imageLoad : String → σ → (Bool × Option Error) × σ
  run : Op → σ → Option Error × σ
  out : Op → σ → String

/-- The state of the world together with the operations performed so far,
oldest first. -/
structure Run (σ : Type) where
  state : σ
  trace : List Op

variable {σ : Type}

/-- Perform an operation that returns only an `error`: it is recorded in the
trace and the world answers and moves to its next state. -/
def issue (w : World σ) (c : Op) (r : Run σ) : Option Error × Run σ :=
  ((w.run c r.state).1, ⟨(w.run c r.state).2, r.trace ++ [c]⟩)

/-! ## The program -/

/-- Go `type merger struct` (the docker client handle `cli` carries no data). -/
structure merger where
  tempDir : String
  buildDir : String
  gitDir : String
  tag : NameReference
  refs : List ImageReference
  outputFile : String
  deriving DecidableEq, Repr

/-- The `for _, img := range refs` loop of `parseReferences`; `acc` is `imageRefs`. -/
def parseReferencesLoop (w : World σ) :
    List String → List ImageReference → Run σ → Outcome (List ImageReference) × Run σ
  | [], acc, r => (.ok acc, r)
  | img :: rest, acc, r =>
    match w.parseDaemonRef img with
    | .error e =>
      (.error (wrap e "parsing base image reference"), ⟨r.state, r.trace ++ [Op.parseDaemonRef img]⟩)
    | .ok ref =>
      parseReferencesLoop w rest (acc ++ [ref]) ⟨r.state, r.trace ++ [Op.parseDaemonRef img]⟩

/-- Go `parseReferences`. -/
def parseReferences (w : World σ) (refs : List String) (r : Run σ) :
    Outcome (List ImageReference) × Run σ :=
  parseReferencesLoop w refs [] r

/-- Go `New`. -/
def New (w : World σ) (tag : String) (refs : List String) (r : Run σ) :
    Outcome merger × Run σ :=
  match w.parseName tag with
  | .error e => (.error (wrap e "name"), ⟨r.state, r.trace ++ [Op.parseName tag]⟩)
  | .ok nameRef =>
    match parseReferences w refs ⟨r.state, r.trace ++ [Op.parseName tag]⟩ with
    | (.error e, r2) => (.error (wrap e "refs"), r2)
    | (.crash, r2) => (.crash, r2)
    | (.ok imgRefs, r2) =>
      match w.tempDir r2.state with
      | (.error e, s3) => (.error (wrap e "create temp dir"), ⟨s3, r2.trace ++ [Op.tempDir]⟩)
      | (.ok tempDir, s3) =>
        match issue w (.mkdir (pathJoin tempDir "build")) ⟨s3, r2.trace ++ [Op.tempDir]⟩ with
        | (some e, r4) => (.error (wrap e "mkdir"), r4)
        | (none, r4) =>
          match issue w (.mkdir (pathJoin tempDir "git")) r4 with
          | (some e, r5) => (.error (wrap e "mkdir"), r5)
          | (none, r5) =>
            match issue w .newEnvClient r5 with
            | (some e, r6) => (.error (wrap e "docker client"), r6)
            | (none, r6) =>
              (.ok { gitDir := pathJoin tempDir "git"
                     tempDir := tempDir
                     buildDir := pathJoin tempDir "build"
                     refs := imgRefs
                     tag := nameRef
                     outputFile := "" }, r6)

/-- Go `(*merger).Close`. -/
def merger.Close (w : World σ) (m : merger) (r : Run σ) : Outcome Unit × Run σ :=
  match issue w (.removeAll m.tempDir) r with
  | (some e, r1) => (.error e, r1)
  | (none, r1) => (.ok (), r1)

/-- Go `(*merger).loadImg`.  `defer resp.Body.Close()` stands before the test of
`err`: when the response carries no body (`resp.Body` is a nil interface) the
method call on it panics, whatever `err` is. -/
def merger.loadImg (w : World σ) (m : merger) (r : Run σ) : Outcome Unit × Run σ :=
  match issue w (.openFile m.outputFile) r with
  | (some e, r1) => (.error (wrap e "opening output file"), r1)
  | (none, r1) =>
    match w.imageLoad m.outputFile r1.state with
    | ((false, _), s2) => (.crash, ⟨s2, r1.trace ++ [Op.imageLoad m.outputFile]⟩)
    | ((true, some e), s2) =>
      (.error (wrap e "loading img"), ⟨s2, r1.trace ++ [Op.imageLoad m.outputFile]⟩)
    | ((true, none), s2) => (.ok (), ⟨s2, r1.trace ++ [Op.imageLoad m.outputFile]⟩)

/-- The loop `for i := 1; i < len(m.refs); i++` of `merge`, over `m.refs[1:]`. -/
def mergeLoop (w : World σ) (gitDir : String) :
    List ImageReference → Run σ → Outcome Unit × Run σ
  | [], r => (.ok (), r)
  | ref :: rest, r =>
    match issue w (.gitMerge gitDir ref.Name "ours") r with
    | (some e, r1) => (.error (wrap e "merge branch"), r1)
    | (none, r1) => mergeLoop w gitDir rest r1

/-- Go `(*merger).merge`.  `m.refs[0]` panics on an empty list.  The checkout is
run through `util.RunCommand` and each merge through `exec.Cmd.Run`; both are
calls of the outside world and are recorded and answered alike. -/
def merger.merge (w : World σ) (m : merger) (r : Run σ) : Outcome Unit × Run σ :=
  match m.refs with
  | [] => (.crash, r)
  | baseImg :: rest =>
    match issue w (.gitCheckout m.gitDir baseImg.Name) r with
    | (some e, r1) => (.error (wrap e "checkout branch"), r1)
    | (none, r1) => mergeLoop w m.gitDir rest r1

/-- Go `(*merger).createImage`.  `m.outputFile` is assigned before
`tarball.WriteToFile` is called, so the updated `merger` is returned on every
path. -/
def merger.createImage (w : World σ) (m : merger) (r : Run σ) :
    merger × Outcome Unit × Run σ :=
  match issue w (.tarCreate m.gitDir ".git" (pathJoin m.buildDir "image.tar.gz")) r with
  | (some e, r1) => (m, .error (wrap e "tar dir"), r1)
  | (none, r1) =>
    match issue w (.layerFromFile (pathJoin m.buildDir "image.tar.gz")) r1 with
    | (some e, r2) => (m, .error (wrap e "layer from file"), r2)
    | (none, r2) =>
      match issue w .appendLayers r2 with
      | (some e, r3) => (m, .error (wrap e "appending layer"), r3)
      | (none, r3) =>
        match issue w .configFile r3 with
        | (some e, r4) => (m, .error (wrap e "getting cfg"), r4)
        | (none, r4) =>
          match issue w (.mutateConfig "amd64") r4 with
          | (some e, r5) => (m, .error (wrap e "mutate config"), r5)
          | (none, r5) =>
            match issue w (.writeToFile (pathJoin m.buildDir "output.tar.gz") m.tag) r5 with
            | (some e, r6) =>
              ({ m with outputFile := pathJoin m.buildDir "output.tar.gz" },
                .error (wrap e "writing tar image"), r6)
            | (none, r6) =>
              ({ m with outputFile := pathJoin m.buildDir "output.tar.gz" }, .ok (), r6)

/-- The path `filepath.Join(dir, li.Digest.String()+".tar.gz")` of a layer blob. -/
def blobPath (dir : String) (li : LayerInfo) : String :=
  pathJoin dir (li.digest ++ ".tar.gz")

/-- The commit message `fmt.Sprintf("'%s'", li.Digest.String())`.  The argument is
handed to `git` without a shell, so the two quote characters are part of it. -/
def commitMessage (li : LayerInfo) : String := "\x27" ++ li.digest ++ "\x27"

/-- The loop `for _, li := range baseImg.LayerInfos()` of `processImage`.
A failure of `tar -xvf` is only logged (`logrus.Warnf`). -/
def processLayers (w : World σ) (git dir : String) :
    List LayerInfo → Run σ → Outcome Unit × Run σ
  | [], r => (.ok (), r)
  | li :: rest, r =>
    match issue w (.getBlob li) r with
    | (some e, r1) => (.error (wrap e "getting blob"), r1)
    | (none, r1) =>
      match issue w (.createFile (blobPath dir li)) r1 with
      | (some e, r2) => (.error (wrap e "opening file"), r2)
      | (none, r2) =>
        match issue w (.copyBlob li (blobPath dir li)) r2 with
        | (some e, r3) => (.error (wrap e "writing file"), r3)
        | (none, r3) =>
          match issue w (.gitAddAll git) (issue w (.tarExtract (blobPath dir li) git) r3).2 with
          | (some e, r5) => (.error (wrap e "git add"), r5)
          | (none, r5) =>
            match issue w (.gitCommit git (commitMessage li)) r5 with
            | (some e, r6) =>
              (.error (wrap e ("committing layer: " ++
                w.out (.gitCommit git (commitMessage li)) r5.state)), r6)
            | (none, r6) => processLayers w git dir rest r6

/-- Go `processImage(a, git, dir)`. -/
def processImage (w : World σ) (a : ImageReference) (git dir : String) (r : Run σ) :
    Outcome Unit × Run σ :=
  match issue w (.gitCheckoutNew dir a.Name "master") r with
  | (some e, r1) => (.error (wrap e "creating branch"), r1)
  | (none, r1) =>
    match w.newImage a r1.state with
    | (.error e, s2) => (.error e, ⟨s2, r1.trace ++ [Op.newImage a]⟩)
    | (.ok layerInfos, s2) =>
      match issue w (.newImageSource a) ⟨s2, r1.trace ++ [Op.newImage a]⟩ with
      | (some e, r3) => (.error e, r3)
      | (none, r3) => processLayers w git dir layerInfos r3

/-- The loop `for _, ref := range m.refs` of `createRepo`. -/
def createRepoLoop (w : World σ) (gitDir : String) :
    List ImageReference → Run σ → Outcome Unit × Run σ
  | [], r => (.ok (), r)
  | ref :: rest, r =>
    match processImage w ref gitDir gitDir r with
    | (.error e, r1) => (.error (wrap e "processing image"), r1)
    | (.crash, r1) => (.crash, r1)
    | (.ok _, r1) => createRepoLoop w gitDir rest r1

/-- Go `(*merger).createRepo`. -/
def merger.createRepo (w : World σ) (m : merger) (r : Run σ) : Outcome Unit × Run σ :=
  match issue w (.mkdirAll m.gitDir) r with
  | (some e, r1) => (.error (wrap e "creating staging repo path"), r1)
  | (none, r1) =>
    match issue w (.gitInit m.gitDir) r1 with
    | (some e, r2) => (.error (wrap e "init git repo"), r2)
    | (none, r2) =>
      match issue w (.gitCommitAllowEmpty m.gitDir "\x27super-root\x27") r2 with
      | (some e, r3) => (.error (wrap e "creating super root commit"), r3)
      | (none, r3) => createRepoLoop w m.gitDir m.refs r3

/-- Go `MergeImages`.  The call `m.Close()` is commented out in the source. -/
def MergeImages (w : World σ) (tag : String) (refs : List String) (r : Run σ) :
    Outcome Unit × Run σ :=
  if refs.length < 2 then
    (.error "need to provide more than one image", r)
  else
    match New w tag refs r with
    | (.error e, r1) => (.error (wrap e "merger"), r1)
    | (.crash, r1) => (.crash, r1)
    | (.ok m, r1) =>
      match m.createRepo w r1 with
      | (.error e, r2) => (.error (wrap e "create repo"), r2)
      | (.crash, r2) => (.crash, r2)
      | (.ok _, r2) =>
        match m.merge w r2 with
        | (.error e, r3) => (.error (wrap e "merge"), r3)
        | (.crash, r3) => (.crash, r3)
        | (.ok _, r3) =>
          match m.createImage w r3 with
          | (_, .error e, r4) => (.error (wrap e "create image"), r4)
          | (_, .crash, r4) => (.crash, r4)
          | (m4, .ok _, r4) =>
            match m4.loadImg w r4 with
            | (.error e, r5) => (.error (wrap e "load img"), r5)
            | (.crash, r5) => (.crash, r5)
            | (.ok _, r5) => (.ok (), r5)

/-! ## A concrete world: the `git` working copy

`gitWorld` is a world in which the commands do what `git` 2.39, `tar` and the
file system do, with the default configuration of `git`.  It keeps the commit
graph (commits with equal parents, tree and message are one commit, as the
program fixes author and dates of the layer commits), the kind of every file
(`git` tracks regular files, with or without the executable bit, and symbolic
links) and the three ways in which `git merge` ends well: already up to date,
fast-forward, and a merge commit over the merge base.

The model does not cover everything.  Where an operation meets a situation the
model does not follow (a `.gitignore` or `.gitattributes` file, a path inside
`.git`, a file rewritten with the same size, uncommitted changes at a checkout,
a merge in which both sides changed a file of the merge base, several merge
bases), the flag `Machine.exact` is cleared: from then on the state is not claimed to be the state of the real
tools. -/

/-- File contents by path.  The first entry for a path is the file. -/
abbrev Tree := List (String × String)

/-- The kinds of file `git` tracks: mode 100644, mode 100755, mode 120000. -/
inductive Kind where
  | regular
  | executable
  | symlink
  deriving DecidableEq, Repr

/-- A tracked file: its kind and its bytes, one character per byte (for a
symbolic link, the target). -/
structure File where
  kind : Kind
  content : String
  deriving DecidableEq, Repr

/-- A set of files by path, relative to the root of the working directory.
The first entry for a path is the file. -/
abbrev Files := List (String × File)

/-- The contents of the files, without their kinds. -/
def Files.contents (fs : Files) : Tree := fs.map (fun e => (e.1, e.2.content))

/-- The paths of the files. -/
def Files.paths (fs : Files) : List String := fs.map (fun e => e.1)

/-- Write at path `p`: replace what is there, or add the entry at the end. -/
def putAt {β : Type} : List (String × β) → String → β → List (String × β)
  | [], p, c => [(p, c)]
  | (q, d) :: t, p, c => if q = p then (q, c) :: t else (q, d) :: putAt t p c

/-- The files of `t` at paths that `s` does not have. -/
def Files.without (t s : Files) : Files :=
  t.filter (fun e => (s.lookup e.1).isNone)

/-- Two sets of files hold the same files. -/
def Files.same (a b : Files) : Bool :=
  (a ++ b).all (fun e => a.lookup e.1 == b.lookup e.1)

/-- Remove `xs` from the front of `ys`, if `ys` starts with it. -/
def dropFront : List Char → List Char → Option (List Char)
  | [], ys => some ys
  | _ :: _, [] => none
  | x :: xs, y :: ys => if x = y then dropFront xs ys else none

/-- The path of `path` relative to the directory `dir`, if it lies inside it. -/
def relTo (dir path : String) : Option String :=
  (dropFront (dir.data ++ ['/']) path.data).map String.mk

/-- Whether the file at path `p` would have to be a directory for `q` to exist. -/
def isDirOf (p q : String) : Bool := (dropFront (p.data ++ ['/']) q.data).isSome

/-- A file/directory clash between two sets of files: a path that is a file in
one and a directory in the other. -/
def Files.clash (a b : Files) : Bool :=
  a.any (fun e => b.any (fun f => isDirOf e.1 f.1 || isDirOf f.1 e.1))

/-- The components of a path, split at the slashes. -/
def splitPath : List Char → List (List Char)
  | [] => [[]]
  | c :: cs =>
    if c = '/' then [] :: splitPath cs
    else
      match splitPath cs with
      | [] => [[c]]
      | x :: xs => (c :: x) :: xs

/-- A path none of whose components is empty, `.`, `..` or a name `git` gives a
meaning to (`.git`, `.gitignore`, `.gitattributes`, `.gitmodules`). -/
def plainPath (p : String) : Bool :=
  (splitPath p.data).all (fun comp =>
    !(["", ".", "..", ".git", ".gitignore", ".gitattributes", ".gitmodules"].contains
      (String.mk comp)))

/-- Files that `git add` and `git merge` treat as plain content: every path is
plain and no path is both a file and a directory. -/
def Files.ordinary (fs : Files) : Bool :=
  fs.all (fun e => plainPath e.1) && !(fs.clash fs)

/-- A staged file that was rewritten in the working directory with the same kind
and the same size.  Whether `git add` notices such a change depends on the file
times (`tar` restores the times of the archive), which the model does not
follow. -/
def Files.rewritten (index work : Files) : Bool :=
  index.any (fun e =>
    match work.lookup e.1 with
    | some f =>
      decide (f ≠ e.2) && decide (f.kind = e.2.kind) &&
        decide (f.content.length = e.2.content.length)
    | none => false)

/-- What `git` takes for binary content: more than `MAX_XDIFF_SIZE` bytes, or a
NUL among the first 8000 bytes. -/
def isBinary (c : String) : Bool :=
  decide (1072693248 < c.length) || (c.data.take 8000).contains (Char.ofNat 0)

/-- What `git merge -X ours` makes of two different files that both sides added at
one path (no file there in the merge base); `none` is a conflict the option does
not resolve.  Two symbolic links: ours.  A symbolic link and a file, or two
files of different mode: conflict.  Two files of one mode: the contents are
merged by lines against the empty file, conflicting lines taken from ours,
which gives the whole file of theirs when ours is empty and the whole file of
ours otherwise; binary content is not merged by lines, ours is taken. -/
def mergeFile (ours theirs : File) : Option File :=
  match ours.kind, theirs.kind with
  | .symlink, .symlink => some ours
  | .symlink, _ => none
  | _, .symlink => none
  | _, _ =>
    if ours.kind ≠ theirs.kind then none
    else if isBinary ours.content || isBinary theirs.content then some ours
    else if ours.content = "" then some theirs
    else some ours

/-- What the merge decides for one path. -/
inductive Verdict where
  /-- the path holds this file (`none`: no file) -/
  | file (f : Option File)
  /-- a conflict that `-X ours` does not resolve -/
  | conflict
  /-- a case the model does not follow -/
  | beyond
  deriving DecidableEq, Repr

/-- The three-way merge of one path under `-X ours`, from what the merge base,
ours and theirs hold there.  Both sides equal: that.  One side as in the base:
the other side.  Added on both sides: `mergeFile`.  A file of the base that
both sides changed differently, or one changed and one removed, is merged by
lines or by rename detection, which the model does not follow. -/
def verdict (base ours theirs : Option File) : Verdict :=
  if ours = theirs then .file ours
  else if ours = base then .file theirs
  else if theirs = base then .file ours
  else
    match base, ours, theirs with
    | none, some fo, some ft =>
      match mergeFile fo ft with
      | some f => .file (some f)
      | none => .conflict
    | _, _, _ => .beyond

/-- The paths a merge decides: those of ours, then those only theirs has. -/
def mergePaths (ours theirs : Files) : List String :=
  ours.paths ++ theirs.paths.filter (fun q => (ours.lookup q).isNone)

/-- Whether `git merge -X ours` stops with a conflict: a file/directory clash
between the two sides, or a path with a conflict. -/
def mergeConflict (base ours theirs : Files) : Bool :=
  ours.clash theirs ||
    (mergePaths ours theirs).any (fun q =>
      verdict (base.lookup q) (ours.lookup q) (theirs.lookup q) == .conflict)

/-- The file the merge leaves at a path (where the model does not follow, ours). -/
def mergePick (base ours theirs : Files) (q : String) : Option File :=
  match verdict (base.lookup q) (ours.lookup q) (theirs.lookup q) with
  | .file f => f
  | _ => ours.lookup q

/-- The tree of the merge commit. -/
def mergeResult (base ours theirs : Files) : Files :=
  (mergePaths ours theirs).filterMap (fun q =>
    (mergePick base ours theirs q).map (fun x => (q, x)))

/-- Whether the model follows the merge: the three trees are ordinary, neither side
removed a path of the base (so that no rename is detected) and no path is
beyond the model. -/
def mergeSure (base ours theirs : Files) : Bool :=
  base.ordinary && ours.ordinary && theirs.ordinary &&
    base.paths.all (fun q => (ours.lookup q).isSome && (theirs.lookup q).isSome) &&
    (mergePaths ours theirs).all (fun q =>
      !(verdict (base.lookup q) (ours.lookup q) (theirs.lookup q) == .beyond))

/-- A layer of an image in the daemon: its blob info, the bytes of the blob and
the files of the tar archive those bytes encode (`none` when the bytes are not
an archive `tar` can read).  The archive lists the entries `git` can track, by
path relative to the root. -/
structure Layer where
  info : LayerInfo
  blob : String
  archive : Option Files
  deriving DecidableEq, Repr

/-- A commit: its parents (positions in the store), its tree and its message. -/
structure Commit where
  parents : List Nat
  tree : Files
  message : String
  deriving DecidableEq, Repr

/-- The state of the concrete world.
`images` are the images of the local daemon and `loadRejects` says whether its
store refuses an artifact.  `repoDir` is the directory `git init` ran in (the
machine holds at most one repository); `commits` is the store of commits, a
commit being named by its position; `tips` maps a branch name to its commit,
`head` is the checked-out branch, `index` the staged files and `work` the files
of the working directory, by path relative to it.  `outside` are the contents
of the files elsewhere, by absolute path.  `exact` says that the run has been
within what the model follows. -/
structure Machine where
  images : List (ImageReference × List Layer)
  loadRejects : Bool
  tempName : String
  repoDir : Option String
  commits : List Commit
  tips : List (String × Nat)
  head : String
  index : Files
  work : Files
  outside : Tree
  exact : Bool
  deriving DecidableEq, Repr

/-- The layers of all images of the daemon. -/
def Machine.layers (m : Machine) : List Layer := (m.images.map (fun i => i.2)).flatten

/-- The files a blob decodes to as a tar archive, if it is one. -/
def Machine.untar (m : Machine) (content : String) : Option Files :=
  (m.layers.find? (fun l => l.blob == content)).bind (fun l => l.archive)

/-- Read the file at an absolute path. -/
def Machine.readFile (m : Machine) (path : String) : Option String :=
  match m.repoDir with
  | none => m.outside.lookup path
  | some d =>
    match relTo d path with
    | some rel => (m.work.lookup rel).map (fun f => f.content)
    | none => m.outside.lookup path

/-- Write the file at an absolute path. -/
def Machine.writeFile (m : Machine) (path : String) (f : File) : Machine :=
  match m.repoDir with
  | none => { m with outside := putAt m.outside path f.content }
  | some d =>
    match relTo d path with
    | some rel => { m with work := putAt m.work rel f }
    | none => { m with outside := putAt m.outside path f.content }

/-- The tree of a commit. -/
def Machine.treeOf (m : Machine) (id : Nat) : Files :=
  ((m.commits[id]?).map (fun c => c.tree)).getD []

/-- The branches with the contents of the files at their tips. -/
def Machine.branches (m : Machine) : List (String × Tree) :=
  m.tips.map (fun b => (b.1, (m.treeOf b.2).contents))

/-- The tree at the tip of the checked-out branch; empty before the first commit. -/
def Machine.headTree (m : Machine) : Files :=
  ((m.tips.lookup m.head).map m.treeOf).getD []

/-- Nothing is uncommitted: working directory, index and tip hold the same. -/
def Machine.clean (m : Machine) : Bool :=
  decide (m.work = m.index) && decide (m.index = m.headTree)

/-- The files of the working directory that are not staged. -/
def Machine.untracked (m : Machine) : Files := m.work.without m.index

/-- The tree `git commit -a` records: the staged paths with the file they are
in the working directory now; a staged path whose file is gone is dropped. -/
def Machine.commitTree (m : Machine) : Files :=
  m.index.filterMap (fun e => (m.work.lookup e.1).map (fun c => (e.1, c)))

/-- The position of a commit in a store. -/
def findCommit (c : Commit) : List Commit → Option Nat
  | [] => none
  | d :: ds => if d = c then some 0 else (findCommit c ds).map (fun i => i + 1)

/-- Put a commit into the store, unless it is there, and name it. -/
def Machine.store (m : Machine) (c : Commit) : Nat × Machine :=
  match findCommit c m.commits with
  | some i => (i, m)
  | none => (m.commits.length, { m with commits := m.commits ++ [c] })

/-- Move the checked-out branch to the commit `id` (creating the branch at the
first commit). -/
def Machine.setTip (m : Machine) (id : Nat) : Machine :=
  { m with tips :=
      if (m.tips.lookup m.head).isSome then
        m.tips.map (fun b => if b.1 = m.head then (b.1, id) else b)
      else m.tips ++ [(m.head, id)] }

/-- Check out the files `t` as branch `b`: the index is `t`, the working directory
holds `t` and keeps its untracked files.  What `git` does with uncommitted
changes is not followed. -/
def Machine.switchTo (m : Machine) (b : String) (t : Files) : Machine :=
  { m with head := b, index := t, work := t ++ m.untracked.without t
           exact := m.exact && m.clean }

/-- The commits reachable from `id` through at most `fuel` parent links. -/
def reach (cs : List Commit) : Nat → Nat → List Nat
  | 0, id => [id]
  | fuel + 1, id => id :: (((cs[id]?).map (fun c => c.parents)).getD []).flatMap (reach cs fuel)

/-- The commit `id` and its ancestors. -/
def Machine.ancestors (m : Machine) (id : Nat) : List Nat := reach m.commits m.commits.length id

/-- The merge bases of two commits: the common ancestors that are not an
ancestor of another common ancestor. -/
def Machine.bases (m : Machine) (h t : Nat) : List Nat :=
  ((List.range m.commits.length).filter
      (fun c => decide (c ∈ m.ancestors h) && decide (c ∈ m.ancestors t))).filter
    (fun c => ((List.range m.commits.length).filter
        (fun d => decide (d ∈ m.ancestors h) && decide (d ∈ m.ancestors t))).all
      (fun d => d == c || !(decide (c ∈ m.ancestors d))))

/-- How the commit to merge stands to the checked-out commit. -/
inductive Relation where
  /-- theirs is an ancestor of ours: nothing to merge -/
  | upToDate
  /-- ours is an ancestor of theirs: the branch moves to theirs -/
  | fastForward
  /-- the histories diverged from this one merge base -/
  | diverged (base : Nat)
  /-- several merge bases, or none -/
  | unknown
  deriving DecidableEq, Repr

/-- The relation of the commit `t` to merge to the checked-out commit `h`. -/
def Machine.relate (m : Machine) (h t : Nat) : Relation :=
  if t ∈ m.ancestors h then .upToDate
  else if h ∈ m.ancestors t then .fastForward
  else
    match m.bases h t with
    | [b] => .diverged b
    | _ => .unknown

/-- Whether the characters `a`, `b` occur next to each other. -/
def hasPair (a b : Char) : List Char → Bool
  | [] => false
  | [_] => false
  | x :: y :: rest => (x == a && y == b) || hasPair a b (y :: rest)

/-- The names `git` accepts for a new branch (`git check-ref-format --branch`):
not empty, not `HEAD`, no leading dash, no control character, space or one of
`~ ^ : ? * [ \`, no `..` and no `@{`, no trailing dot, and no component that is
empty, begins with a dot or ends in `.lock`. -/
def validBranch (b : String) : Bool :=
  b ≠ "" && b ≠ "HEAD" && b.data.head? != some '-' &&
    b.data.all (fun c => decide (32 ≤ c.toNat) && c.toNat != 127 &&
      !(" ~^:?*[\\".data.contains c)) &&
    !(hasPair '.' '.' b.data) && !(hasPair '@' (Char.ofNat 123) b.data) &&
    b.data.getLast? != some '.' &&
    (splitPath b.data).all (fun comp =>
      comp != [] && comp.head? != some '.' && !(".lock".data.isSuffixOf comp))

/-- The message of a merge commit. -/
def mergeMessage (head branch : String) : String :=
  if head = "master" then "Merge branch \x27" ++ branch ++ "\x27"
  else "Merge branch \x27" ++ branch ++ "\x27 into " ++ head

/-- What the operations that only return an `error` do in the concrete world.
A `git` command run outside the repository fails.  A branch is not created
under a name `git` refuses, nor next to a branch whose name is a directory of
the new name or lies in it (`a/b` and `a/b/c`). -/
def gitRun (c : Op) (m : Machine) : Option Error × Machine :=
  match c with
  | .gitInit dir =>
    match m.repoDir with
    | none =>
      (none, { m with repoDir := some dir, head := "master", commits := [], tips := []
                      index := []
                      work := m.outside.filterMap (fun e =>
                        (relTo dir e.1).map (fun p => (p, (⟨.regular, e.2⟩ : File))))
                      outside := m.outside.filter (fun e => (relTo dir e.1).isNone) })
    | some d =>
      if d = dir then (none, m) else (some "exit status 128", { m with exact := false })
  | .gitCommitAllowEmpty dir msg =>
    if m.repoDir = some dir then
      (none, (m.store ⟨(m.tips.lookup m.head).toList, m.index, msg⟩).2.setTip
        (m.store ⟨(m.tips.lookup m.head).toList, m.index, msg⟩).1)
    else (some "exit status 128", m)
  | .gitCheckoutNew dir b start =>
    if m.repoDir = some dir then
      match m.tips.lookup start, m.tips.lookup b with
      | some id, none =>
        if validBranch b && !(m.tips.any (fun k => isDirOf b k.1 || isDirOf k.1 b)) then
          (none, { m.switchTo b (m.treeOf id) with tips := m.tips ++ [(b, id)] })
        else (some "exit status 128", m)
      | _, _ => (some "exit status 128", m)
    else (some "exit status 128", m)
  | .gitAddAll dir =>
    if m.repoDir = some dir then
      (none, { m with index := m.work
                      exact := m.exact && m.work.ordinary && !(m.index.rewritten m.work) })
    else (some "exit status 128", m)
  | .gitCommit dir msg =>
    if m.repoDir = some dir then
      if m.commitTree.same m.headTree then (some "exit status 1", m)
      else
        (none, { (m.store ⟨(m.tips.lookup m.head).toList, m.commitTree, msg⟩).2.setTip
                   (m.store ⟨(m.tips.lookup m.head).toList, m.commitTree, msg⟩).1
                 with index := m.commitTree })
    else (some "exit status 128", m)
  | .gitCheckout dir b =>
    if m.repoDir = some dir then
      match m.tips.lookup b with
      | some id => (none, m.switchTo b (m.treeOf id))
      | none => (some "exit status 1", m)
    else (some "exit status 128", m)
  | .gitMerge dir b option =>
    if m.repoDir = some dir then
      if option = "ours" then
        match m.tips.lookup m.head, m.tips.lookup b with
        | some h, some t =>
          match m.relate h t with
          | .upToDate => (none, m)
          | .fastForward =>
            (none, { (m.setTip t).switchTo m.head (m.treeOf t) with
                     exact := m.exact && m.clean })
          | .diverged base =>
            if mergeConflict (m.treeOf base) (m.treeOf h) (m.treeOf t) then
              (some "exit status 1", { m with exact := false })
            else
              (none,
                { ((m.store ⟨[h, t], mergeResult (m.treeOf base) (m.treeOf h) (m.treeOf t),
                      mergeMessage m.head b⟩).2.setTip
                    (m.store ⟨[h, t], mergeResult (m.treeOf base) (m.treeOf h) (m.treeOf t),
                      mergeMessage m.head b⟩).1).switchTo m.head
                    (mergeResult (m.treeOf base) (m.treeOf h) (m.treeOf t))
                  with exact := m.exact && m.clean &&
                    mergeSure (m.treeOf base) (m.treeOf h) (m.treeOf t) })
          | .unknown => (some "exit status 1", { m with exact := false })
        | _, _ => (some "exit status 1", m)
      else (some "exit status 1", { m with exact := false })
    else (some "exit status 128", m)
  | .getBlob li =>
    if m.layers.any (fun l => l.info == li) then (none, m) else (some "blob unknown", m)
  | .createFile path => (none, m.writeFile path ⟨.regular, ""⟩)
  | .copyBlob li path =>
    match m.layers.find? (fun l => l.info == li) with
    | some l => (none, m.writeFile path ⟨.regular, l.blob⟩)
    | none => (some "unexpected EOF", m)
  | .tarExtract archive dest =>
    match (m.readFile archive).bind m.untar with
    | some entries =>
      (none,
        { entries.foldl (fun acc e => acc.writeFile (pathJoin dest e.1) e.2) m with
          exact := m.exact &&
            (entries.foldl (fun acc e => acc.writeFile (pathJoin dest e.1) e.2) m).work.ordinary })
    | none => (some "exit status 2", m)
  | .writeToFile path _ => (none, m.writeFile path ⟨.regular, "image"⟩)
  | .openFile path =>
    if (m.readFile path).isSome then (none, m) else (some "no such file or directory", m)
  | _ => (none, m)

/-- The first colon of a reference string splits the repository from the tag. -/
def splitTag : List Char → List Char × Option (List Char)
  | [] => ([], none)
  | c :: cs => if c = ':' then ([], some cs) else ((c :: (splitTag cs).1), (splitTag cs).2)

/-- The concrete world.  Its parsers are simple stand-ins for the two reference
parsers: they refuse the empty string, and the daemon parser splits
`repository:tag` at the first colon (tag `latest` when there is none). -/
def gitWorld : World Machine where
  parseName s := if s = "" then .error "could not parse reference" else .ok ⟨s⟩
  parseDaemonRef s :=
    if s = "" then .error "invalid reference format"
    else .ok ⟨String.mk (splitTag s.data).1, ((splitTag s.data).2.map String.mk).getD "latest"⟩
  tempDir m := (.ok m.tempName, m)
  newImage a m :=
    match m.images.lookup a with
    | some ls => (.ok (ls.map (fun l => l.info)), m)
    | none => (.error "no such image", m)
  imageLoad _ m :=
    if m.loadRejects then ((false, some "Error response from daemon"), m) else ((true, none), m)
  run := gitRun
  out _ _ := ""

/-- A machine with the given images, before anything ran. -/
def Machine.fresh (images : List (ImageReference × List Layer)) (loadRejects : Bool) : Machine :=
  { images := images, loadRejects := loadRejects, tempName := "/tmp/m", repoDir := none
    commits := [], tips := [], head := "", index := [], work := [], outside := []
    exact := true }

/-- The start of a run on a machine. -/
def Machine.start (m : Machine) : Run Machine := ⟨m, []⟩

/-! ## Sample data

The end-to-end scenario of the specification: image A holds the files `a = 1`
and `shared = X`, image B holds `b = 2` and `shared = Y` (paths relative to the
root of the image). -/

/-- The reference of image A. -/
def refA : ImageReference := ⟨"imageA", "latest"⟩

/-- The reference of image B. -/
def refB : ImageReference := ⟨"imageB", "latest"⟩

/-- The files of image A. -/
def filesA : Files := [("a", ⟨.regular, "1"⟩), ("shared", ⟨.regular, "X"⟩)]

/-- The files of image B. -/
def filesB : Files := [("b", ⟨.regular, "2"⟩), ("shared", ⟨.regular, "Y"⟩)]

/-- The single layer of image A. -/
def layerA : Layer := ⟨⟨"sha256:aa", 7⟩, "blob-aa", some filesA⟩

/-- The single layer of image B. -/
def layerB : Layer := ⟨⟨"sha256:bb", 7⟩, "blob-bb", some filesB⟩

/-- A daemon holding the images A and B. -/
def sampleImages : List (ImageReference × List Layer) :=
  [(refA, [layerA]), (refB, [layerB])]

/-- An image whose single layer has a blob that `tar` cannot read. -/
def refBroken : ImageReference := ⟨"broken", "latest"⟩

/-- The layer of the broken image. -/
def layerBroken : Layer := ⟨⟨"sha256:bad", 7⟩, "garbage", none⟩

/-- A daemon holding the broken image and image A. -/
def brokenImages : List (ImageReference × List Layer) :=
  [(refBroken, [layerBroken]), (refA, [layerA])]

/-- Two references to the repository `ubuntu` that differ only in the tag. -/
def refUbuntu16 : ImageReference := ⟨"ubuntu", "16.04"⟩

/-- The second reference to `ubuntu`. -/
def refUbuntu18 : ImageReference := ⟨"ubuntu", "18.04"⟩

/-- An image whose file `shared` is empty. -/
def refEmpty : ImageReference := ⟨"imageE", "latest"⟩

/-- The single layer of the image with the empty file. -/
def layerEmpty : Layer := ⟨⟨"sha256:ee", 7⟩, "blob-ee", some [("shared", ⟨.regular, ""⟩)]⟩

/-- A layer that two images start with. -/
def layerShared : Layer := ⟨⟨"sha256:11", 7⟩, "blob-11", some [("shared", ⟨.regular, "X"⟩)]⟩

/-- An image made of the shared layer alone. -/
def refShort : ImageReference := ⟨"short", "latest"⟩

/-- A layer that rewrites the file `shared`. -/
def layerTop : Layer := ⟨⟨"sha256:22", 7⟩, "blob-22", some [("shared", ⟨.regular, "YY"⟩)]⟩

/-- An image made of the shared layer and the rewriting layer on top. -/
def refLong : ImageReference := ⟨"long", "latest"⟩

/-- A daemon holding the images of the two scenarios in which the first source
does not win: the empty file, and the shared leading layer. -/
def oddImages : List (ImageReference × List Layer) :=
  [(refEmpty, [layerEmpty]), (refB, [layerB]), (refShort, [layerShared]),
   (refLong, [layerShared, layerTop])]

/-- The final file system of an image: the files of its layers, applied in
order to the empty tree. -/
def finalFiles (layers : List Layer) : Tree :=
  Files.contents
    (layers.foldl (fun t l => (l.archive.getD []).foldl (fun u e => putAt u e.1 e.2) t) [])

/-- A merger working in `/tmp/m` on the given sources. -/
def sampleMerger (refs : List ImageReference) : merger :=
  { tempDir := "/tmp/m", buildDir := "/tmp/m/build", gitDir := "/tmp/m/git"
    tag := ⟨"merged:latest"⟩, refs := refs, outputFile := "" }

/-- The repository that `createRepo` builds in `/tmp/m/git` from the images A and
B: the branches `imageA` and `imageB`, both started from the empty `master`;
`imageB`, the branch created last, is checked out. -/
def sampleRepo : Machine :=
  ((sampleMerger [refA, refB]).createRepo gitWorld (Machine.fresh sampleImages false).start).2.state

/-- The repository of `/tmp/m/git` right after `git init` and the super-root
commit, on a machine whose daemon holds `images`: the state in which `createRepo`
starts to process the images. -/
def initRepo (images : List (ImageReference × List Layer)) : Machine :=
  ((sampleMerger []).createRepo gitWorld (Machine.fresh images false).start).2.state

/-! ## Vocabulary of the statements -/

/-- The state of the world after the operations `ops` ran in order from `s`. -/
def World.after (w : World σ) (s : σ) (ops : List Op) : σ :=
  ops.foldl (fun t c => (w.run c t).2) s

/-- The answer of the world to the `k`-th operation of `ops` (counted from 0)
when the operations before it ran in order from `s`; `none` is success. -/
def World.answer (w : World σ) (s : σ) (ops : List Op) (k : Nat) : Option Error :=
  (ops[k]?).bind (fun c => (w.run c (w.after s (ops.take k))).1)

/-- The operations `merge` is to issue: the checkout of the branch of `refs[0]`,
then one merge with option `ours` per later reference, in order. -/
def merger.mergeOps (m : merger) : List Op :=
  (m.refs.take 1).map (fun a => Op.gitCheckout m.gitDir a.Name) ++
    (m.refs.drop 1).map (fun a => Op.gitMerge m.gitDir a.Name "ours")

/-- The operations `processImage` performs for one layer, in order: fetch the
blob, create the blob file, write it, unpack it, stage everything, commit with
the quoted digest as message. -/
def layerOps (git dir : String) (li : LayerInfo) : List Op :=
  [.getBlob li, .createFile (blobPath dir li), .copyBlob li (blobPath dir li),
   .tarExtract (blobPath dir li) git, .gitAddAll git,
   .gitCommit git ("\x27" ++ li.digest ++ "\x27")]

/-- The commit of a layer. -/
def Op.isCommit : Op → Bool
  | .gitCommit _ _ => true
  | _ => false

/-- The world `w` with a `tar -xvf` that never reports a failure: it does to the
state what it does in `w`, and its error is dropped. -/
def World.unpackSilent (w : World σ) : World σ :=
  { w with run := fun c s =>
      match c with
      | .tarExtract _ _ => (none, (w.run c s).2)
      | _ => w.run c s }

/-- The operations that parse a reference string. -/
def Op.isParse : Op → Bool
  | .parseName _ => true
  | .parseDaemonRef _ => true
  | _ => false

/-- The operation of `Close`, which removes the temporary directory. -/
def Op.isRemoveAll : Op → Bool
  | .removeAll _ => true
  | _ => false

/-- Every removal of a directory recorded in the run `r1` was already recorded
in the run `r`: between the two, nothing was removed. -/
def NoRemoval (r r1 : Run σ) : Prop :=
  ∀ c, c ∈ r1.trace → c.isRemoveAll = true → c ∈ r.trace

end DockerMerge

namespace DockerMerge

variable {σ : Type}

/-! ## Basic facts -/

theorem answer_nil (w : World σ) (s : σ) (k : Nat) : w.answer s [] k = none := by
  simp [World.answer]

theorem answer_cons_zero (w : World σ) (s : σ) (c : Op) (ops : List Op) :
    w.answer s (c :: ops) 0 = (w.run c s).1 := by
  simp [World.answer, World.after]

theorem answer_cons_succ (w : World σ) (s : σ) (c : Op) (ops : List Op) (k : Nat) :
    w.answer s (c :: ops) (k + 1) = w.answer (w.run c s).2 ops k := by
  simp [World.answer, World.after]

/-! ## The merge stage -/

theorem mergeLoop_order (w : World σ) (gitDir : String) :
    ∀ (rest : List ImageReference) (r : Run σ),
      (∀ k e, w.answer r.state (rest.map (fun a => Op.gitMerge gitDir a.Name "ours")) k = some e →
        (∀ j, j < k →
          w.answer r.state (rest.map (fun a => Op.gitMerge gitDir a.Name "ours")) j = none) →
        (mergeLoop w gitDir rest r).1 = .error (wrap e "merge branch") ∧
        (mergeLoop w gitDir rest r).2.trace =
          r.trace ++ (rest.map (fun a => Op.gitMerge gitDir a.Name "ours")).take (k + 1)) ∧
      ((∀ k, w.answer r.state (rest.map (fun a => Op.gitMerge gitDir a.Name "ours")) k = none) →
        (mergeLoop w gitDir rest r).1 = .ok () ∧
        (mergeLoop w gitDir rest r).2.trace =
          r.trace ++ rest.map (fun a => Op.gitMerge gitDir a.Name "ours")) := by
  intro rest
  induction rest with
  | nil =>
    intro r
    refine ⟨?_, ?_⟩
    · intro k e h
      simp [answer_nil] at h
    · intro _
      simp [mergeLoop]
  | cons a rest ih =>
    intro r
    simp only [List.map_cons]
    cases h0 : (w.run (Op.gitMerge gitDir a.Name "ours") r.state).1 with
    | some e0 =>
      refine ⟨?_, ?_⟩
      · intro k e hk hlt
        cases k with
        | zero =>
          rw [answer_cons_zero, h0] at hk
          cases hk
          simp [mergeLoop, issue, h0]
        | succ k =>
          have := hlt 0 (Nat.succ_pos k)
          rw [answer_cons_zero, h0] at this
          cases this
      · intro hall
        have := hall 0
        rw [answer_cons_zero, h0] at this
        cases this
    | none =>
      have hstep : mergeLoop w gitDir (a :: rest) r =
          mergeLoop w gitDir rest (issue w (Op.gitMerge gitDir a.Name "ours") r).2 := by
        simp [mergeLoop, issue, h0]
      rw [hstep]
      obtain ⟨ih1, ih2⟩ := ih (issue w (Op.gitMerge gitDir a.Name "ours") r).2
      refine ⟨?_, ?_⟩
      · intro k e hk hlt
        cases k with
        | zero =>
          rw [answer_cons_zero, h0] at hk
          cases hk
        | succ k =>
          rw [answer_cons_succ] at hk
          have hlt2 : ∀ j, j < k → w.answer (issue w (Op.gitMerge gitDir a.Name "ours") r).2.state
              (rest.map (fun a => Op.gitMerge gitDir a.Name "ours")) j = none := by
            intro j hj
            have := hlt (j + 1) (Nat.succ_lt_succ hj)
            rwa [answer_cons_succ] at this
          obtain ⟨h1, h2⟩ := ih1 k e hk hlt2
          refine ⟨h1, ?_⟩
          rw [h2]
          simp [issue]
      · intro hall
        have hall2 : ∀ k, w.answer (issue w (Op.gitMerge gitDir a.Name "ours") r).2.state
            (rest.map (fun a => Op.gitMerge gitDir a.Name "ours")) k = none := by
          intro k
          have := hall (k + 1)
          rwa [answer_cons_succ] at this
        obtain ⟨h1, h2⟩ := ih2 hall2
        refine ⟨h1, ?_⟩
        rw [h2]
        simp [issue]

/-- C2. Merge order: for a merger with at least one source, `merge` issues the
checkout of the branch of `refs[0]` and then, in order, one `-X ours` merge per
later reference.  If the `k`-th of these operations is the first that fails,
`merge` returns its error (wrapped) and has issued exactly the first `k + 1`
of them; if none fails, `merge` succeeds and has issued exactly all of them. -/
theorem merge_order (w : World σ) (m : merger) (r : Run σ) (hn : 1 ≤ m.refs.length) :
    (∀ k e, w.answer r.state m.mergeOps k = some e →
      (∀ j, j < k → w.answer r.state m.mergeOps j = none) →
      (m.merge w r).1 =
        .error (wrap e (if k = 0 then "checkout branch" else "merge branch")) ∧
      (m.merge w r).2.trace = r.trace ++ m.mergeOps.take (k + 1)) ∧
    ((∀ k, w.answer r.state m.mergeOps k = none) →
      (m.merge w r).1 = .ok () ∧ (m.merge w r).2.trace = r.trace ++ m.mergeOps) := by
  obtain ⟨tempDir, buildDir, gitDir, tag, refs, outputFile⟩ := m
  cases refs with
  | nil => simp at hn
  | cons base rest =>
    simp only [merger.mergeOps, merger.merge, List.take_succ_cons, List.take_zero,
      List.map_cons, List.map_nil, List.drop_succ_cons, List.drop_zero, List.cons_append,
      List.nil_append]
    cases h0 : (w.run (Op.gitCheckout gitDir base.Name) r.state).1 with
    | some e0 =>
      refine ⟨?_, ?_⟩
      · intro k e hk hlt
        cases k with
        | zero =>
          rw [answer_cons_zero, h0] at hk
          cases hk
          simp [issue, h0]
        | succ k =>
          have := hlt 0 (Nat.succ_pos k)
          rw [answer_cons_zero, h0] at this
          cases this
      · intro hall
        have := hall 0
        rw [answer_cons_zero, h0] at this
        cases this
    | none =>
      obtain ⟨ih1, ih2⟩ := mergeLoop_order w gitDir rest (issue w (Op.gitCheckout gitDir base.Name) r).2
      refine ⟨?_, ?_⟩
      · intro k e hk hlt
        cases k with
        | zero =>
          rw [answer_cons_zero, h0] at hk
          cases hk
        | succ k =>
          rw [answer_cons_succ] at hk
          have hlt2 : ∀ j, j < k → w.answer (issue w (Op.gitCheckout gitDir base.Name) r).2.state
              (rest.map (fun a => Op.gitMerge gitDir a.Name "ours")) j = none := by
            intro j hj
            have := hlt (j + 1) (Nat.succ_lt_succ hj)
            rwa [answer_cons_succ] at this
          obtain ⟨h1, h2⟩ := ih1 k e hk hlt2
          simp only [issue, h0] at h1 h2 ⊢
          simp [h1, h2]
      · intro hall
        have hall2 : ∀ k, w.answer (issue w (Op.gitCheckout gitDir base.Name) r).2.state
            (rest.map (fun a => Op.gitMerge gitDir a.Name "ours")) k = none := by
          intro k
          have := hall (k + 1)
          rwa [answer_cons_succ] at this
        obtain ⟨h1, h2⟩ := ih2 hall2
        simp only [issue, h0] at h1 h2 ⊢
        simp [h1, h2]

theorem merge_order_witness :
    1 ≤ (sampleMerger [refA, refB]).refs.length ∧
      ((sampleMerger [refA, refB]).merge gitWorld ⟨sampleRepo, []⟩).1 = .ok () ∧
      ((sampleMerger [refA, refB]).merge gitWorld ⟨sampleRepo, []⟩).2.trace =
        [Op.gitCheckout "/tmp/m/git" "imageA", Op.gitMerge "/tmp/m/git" "imageB" "ours"] ∧
      ((sampleMerger [refA, refBroken, refB]).merge gitWorld ⟨sampleRepo, []⟩).1 =
        .error "merge branch: exit status 1" ∧
      ((sampleMerger [refA, refBroken, refB]).merge gitWorld ⟨sampleRepo, []⟩).2.trace =
        [Op.gitCheckout "/tmp/m/git" "imageA", Op.gitMerge "/tmp/m/git" "broken" "ours"]
    := by
  have h1 := (merge_order gitWorld (sampleMerger [refA, refB]) ⟨sampleRepo, []⟩ (by decide)).2
    (fun k => match k with
      | 0 => by decide
      | 1 => by decide
      | k + 2 => by simp [World.answer, merger.mergeOps, sampleMerger])
  have h2 := (merge_order gitWorld (sampleMerger [refA, refBroken, refB]) ⟨sampleRepo, []⟩
    (by decide)).1 1 "exit status 1" (by decide)
    (fun j hj => by
      have h0 : j = 0 := by omega
      subst h0
      decide)
  exact ⟨by decide, h1.1, h1.2.trans (by decide), h2.1.trans (by decide),
    h2.2.trans (by decide)⟩

/-! ## Too few sources, unparsable references -/

/-- C3. With fewer than two sources `MergeImages` returns the error
"need to provide more than one image" whatever the destination tag is, and
nothing was done: the state of the world and the trace of operations (no
reference parsed, no directory created, no stage run) are those of the start. -/
theorem MergeImages_insufficient_sources (w : World σ) (tag : String) (refs : List String)
    (r : Run σ) (h : refs.length < 2) :
    MergeImages w tag refs r = (.error "need to provide more than one image", r) := by
  simp [MergeImages, h]

theorem MergeImages_insufficient_sources_witness :
    ["ubuntu:16.04"].length < 2 ∧
      MergeImages gitWorld "" ["ubuntu:16.04"] (Machine.fresh [] false).start =
        (.error "need to provide more than one image", (Machine.fresh [] false).start) :=
  ⟨by decide, MergeImages_insufficient_sources gitWorld "" ["ubuntu:16.04"] _ (by decide)⟩

theorem parseReferencesLoop_trace (w : World σ) :
    ∀ (refs : List String) (acc : List ImageReference) (r : Run σ),
      (parseReferencesLoop w refs acc r).2.state = r.state ∧
      ∃ ops, (parseReferencesLoop w refs acc r).2.trace = r.trace ++ ops ∧
        ∀ c ∈ ops, c.isParse = true := by
  intro refs
  induction refs with
  | nil =>
    intro acc r
    exact ⟨rfl, [], by simp [parseReferencesLoop], by simp⟩
  | cons img rest ih =>
    intro acc r
    cases h : w.parseDaemonRef img with
    | error e =>
      simp only [parseReferencesLoop, h]
      exact ⟨trivial, [Op.parseDaemonRef img], by simp, by simp [Op.isParse]⟩
    | ok ref =>
      simp only [parseReferencesLoop, h]
      obtain ⟨h1, ops, h2, h3⟩ := ih (acc ++ [ref]) ⟨r.state, r.trace ++ [Op.parseDaemonRef img]⟩
      refine ⟨h1, Op.parseDaemonRef img :: ops, ?_, ?_⟩
      · rw [h2]
        simp
      · intro c hc
        rcases List.mem_cons.mp hc with hc | hc
        · subst hc
          rfl
        · exact h3 c hc

theorem parseReferencesLoop_fails (w : World σ) :
    ∀ (refs : List String) (acc : List ImageReference) (r : Run σ),
      (∃ s ∈ refs, ∃ e, w.parseDaemonRef s = .error e) →
      ∃ s ∈ refs, ∃ e, w.parseDaemonRef s = .error e ∧
        (parseReferencesLoop w refs acc r).1 =
          .error (wrap e "parsing base image reference") := by
  intro refs
  induction refs with
  | nil =>
    intro acc r h
    simp at h
  | cons img rest ih =>
    intro acc r hbad
    cases h : w.parseDaemonRef img with
    | error e =>
      exact ⟨img, List.mem_cons_self _ _, e, h, by simp [parseReferencesLoop, h]⟩
    | ok ref =>
      have hrest : ∃ s ∈ rest, ∃ e, w.parseDaemonRef s = .error e := by
        obtain ⟨s, hs, e, he⟩ := hbad
        rcases List.mem_cons.mp hs with hs | hs
        · subst hs
          rw [h] at he
          cases he
        · exact ⟨s, hs, e, he⟩
      obtain ⟨s, hs, e, he, hres⟩ :=
        ih (acc ++ [ref]) ⟨r.state, r.trace ++ [Op.parseDaemonRef img]⟩ hrest
      exact ⟨s, List.mem_cons_of_mem _ hs, e, he, by simp [parseReferencesLoop, h, hres]⟩

/-- C4. With at least two sources, if the destination tag or one of the source
strings does not parse, `MergeImages` returns the parser's error, wrapped by
`New` ("name", or "refs: parsing base image reference") and by `MergeImages`
("merger"); the state of the world is unchanged and the only operations
performed are parse operations: no directory was created and no stage ran. -/
theorem MergeImages_invalid_reference (w : World σ) (tag : String) (refs : List String)
    (r : Run σ) (h2 : 2 ≤ refs.length)
    (hbad : (∃ e, w.parseName tag = .error e) ∨
      ∃ s ∈ refs, ∃ e, w.parseDaemonRef s = .error e) :
    (∃ e, (w.parseName tag = .error e ∧
          (MergeImages w tag refs r).1 = .error (wrap (wrap e "name") "merger")) ∨
        (∃ s ∈ refs, w.parseDaemonRef s = .error e ∧
          (MergeImages w tag refs r).1 =
            .error (wrap (wrap (wrap e "parsing base image reference") "refs") "merger"))) ∧
    (MergeImages w tag refs r).2.state = r.state ∧
    ∃ ops, (MergeImages w tag refs r).2.trace = r.trace ++ ops ∧
      ∀ c ∈ ops, c.isParse = true := by
  have hlen : ¬ refs.length < 2 := by omega
  cases hn : w.parseName tag with
  | error e =>
    refine ⟨⟨e, Or.inl ⟨rfl, ?_⟩⟩, ?_, [Op.parseName tag], ?_, ?_⟩
    · simp [MergeImages, hlen, New, hn]
    · simp [MergeImages, hlen, New, hn]
    · simp [MergeImages, hlen, New, hn]
    · simp [Op.isParse]
  | ok nameRef =>
    have hsrc : ∃ s ∈ refs, ∃ e, w.parseDaemonRef s = .error e := by
      rcases hbad with ⟨e, he⟩ | h
      · rw [hn] at he
        cases he
      · exact h
    obtain ⟨s, hs, e, he, hres⟩ :=
      parseReferencesLoop_fails w refs [] ⟨r.state, r.trace ++ [Op.parseName tag]⟩ hsrc
    obtain ⟨hst, ops, htr, hops⟩ :=
      parseReferencesLoop_trace w refs [] ⟨r.state, r.trace ++ [Op.parseName tag]⟩
    have hpair : parseReferences w refs ⟨r.state, r.trace ++ [Op.parseName tag]⟩ =
        (.error (wrap e "parsing base image reference"),
          (parseReferencesLoop w refs [] ⟨r.state, r.trace ++ [Op.parseName tag]⟩).2) := by
      rw [parseReferences, ← hres]
    have hM : MergeImages w tag refs r =
        (.error (wrap (wrap (wrap e "parsing base image reference") "refs") "merger"),
          (parseReferencesLoop w refs [] ⟨r.state, r.trace ++ [Op.parseName tag]⟩).2) := by
      simp [MergeImages, hlen, New, hn, hpair]
    refine ⟨⟨e, Or.inr ⟨s, hs, he, by rw [hM]⟩⟩, ?_, Op.parseName tag :: ops, ?_, ?_⟩
    · rw [hM]
      exact hst
    · rw [hM]
      simp only [htr]
      simp
    · intro c hc
      rcases List.mem_cons.mp hc with hc | hc
      · subst hc
        rfl
      · exact hops c hc

theorem MergeImages_invalid_reference_witness :
    2 ≤ ["ubuntu:16.04", ""].length ∧
      gitWorld.parseDaemonRef "" = .error "invalid reference format" ∧
      (MergeImages gitWorld "merged:latest" ["ubuntu:16.04", ""]
        (Machine.fresh [] false).start).2.state = Machine.fresh [] false :=
  ⟨by decide, rfl,
    (MergeImages_invalid_reference gitWorld "merged:latest" ["ubuntu:16.04", ""]
      (Machine.fresh [] false).start (by decide)
      (Or.inr ⟨"", by simp, "invalid reference format", rfl⟩)).2.1⟩

/-! ## Ours wins -/

theorem lookup_isSome_of_mem {β : Type} (q : String) (x : β) :
    ∀ (l : List (String × β)), (q, x) ∈ l → (l.lookup q).isSome = true := by
  intro l
  induction l with
  | nil =>
    intro h
    simp at h
  | cons e l ih =>
    intro h
    obtain ⟨k, v⟩ := e
    by_cases hk : q = k
    · subst hk
      simp [List.lookup_cons]
    · have hk2 : (q == k) = false := by simpa using hk
      rcases List.mem_cons.mp h with h | h
      · cases h
        exact absurd rfl hk
      · simp only [List.lookup_cons, hk2]
        exact ih h

theorem mem_paths_of_lookup (q : String) (f : File) :
    ∀ (fs : Files), fs.lookup q = some f → q ∈ fs.paths := by
  intro fs
  induction fs with
  | nil =>
    intro h
    simp at h
  | cons e l ih =>
    intro h
    obtain ⟨k, v⟩ := e
    by_cases hk : q = k
    · subst hk
      simp [Files.paths]
    · have hk2 : (q == k) = false := by simpa using hk
      simp only [List.lookup_cons, hk2] at h
      have := ih h
      simp only [Files.paths, List.map_cons, List.mem_cons] at this ⊢
      exact Or.inr this

theorem without_self (t : Files) : t.without t = [] := by
  simp only [Files.without, List.filter_eq_nil_iff]
  intro e he
  have := lookup_isSome_of_mem e.1 e.2 t he
  rw [Option.isSome_iff_exists] at this
  obtain ⟨x, hx⟩ := this
  simp [hx]

theorem lookup_set_tip {β : Type} (hd : String) (t : β) :
    ∀ (bs : List (String × β)), (bs.lookup hd).isSome = true →
      (bs.map (fun b => if b.1 = hd then (b.1, t) else b)).lookup hd = some t := by
  intro bs
  induction bs with
  | nil =>
    intro h
    simp at h
  | cons b bs ih =>
    intro h
    obtain ⟨k, v⟩ := b
    by_cases hk : k = hd
    · subst hk
      simp [List.lookup_cons]
    · have hk2 : (hd == k) = false := by
        simpa using fun h2 => hk h2.symm
      simp only [List.lookup_cons, hk2] at h
      simp only [List.map_cons, hk, if_false, List.lookup_cons, hk2]
      exact ih h

theorem lookup_filterMap_keys {β : Type} (g : String → Option β) (p : String) :
    ∀ (l : List String), p ∈ l →
      (l.filterMap (fun q => (g q).map (fun x => (q, x)))).lookup p = g p := by
  intro l
  induction l with
  | nil =>
    intro h
    simp at h
  | cons k l ih =>
    intro h
    by_cases hk : p = k
    · subst hk
      cases hg : g p with
      | some x => simp [List.filterMap_cons, hg, List.lookup_cons]
      | none =>
        simp only [List.filterMap_cons, hg, Option.map_none']
        by_cases hl : p ∈ l
        · rw [ih hl, hg]
        · have : ∀ (l2 : List String), p ∉ l2 →
              (l2.filterMap (fun q => (g q).map (fun x => (q, x)))).lookup p = none := by
            intro l2
            induction l2 with
            | nil => intro _; rfl
            | cons j l2 ih2 =>
              intro hj
              have hj1 : p ≠ j := fun e => hj (e ▸ List.mem_cons_self _ _)
              have hj2 : p ∉ l2 := fun e => hj (List.mem_cons_of_mem _ e)
              have hj3 : (p == j) = false := by simpa using hj1
              cases hgj : g j with
              | none => simp [List.filterMap_cons, hgj, ih2 hj2]
              | some y => simp [List.filterMap_cons, hgj, List.lookup_cons, hj3, ih2 hj2]
          exact this l hl
    · have hl : p ∈ l := by
        rcases List.mem_cons.mp h with h | h
        · exact absurd h hk
        · exact h
      have hk2 : (p == k) = false := by simpa using hk
      cases hgk : g k with
      | none => simp [List.filterMap_cons, hgk, ih hl]
      | some y => simp [List.filterMap_cons, hgk, List.lookup_cons, hk2, ih hl]

theorem findCommit_getElem (c : Commit) :
    ∀ (l : List Commit) (i : Nat), findCommit c l = some i → l[i]? = some c := by
  intro l
  induction l with
  | nil =>
    intro i h
    simp [findCommit] at h
  | cons d ds ih =>
    intro i h
    by_cases hd : d = c
    · subst hd
      simp [findCommit] at h
      subst h
      simp
    · simp only [findCommit, hd, if_false, Option.map_eq_some'] at h
      obtain ⟨j, hj, rfl⟩ := h
      simpa using ih j hj

theorem store_treeOf (m : Machine) (c : Commit) :
    (m.store c).2.treeOf (m.store c).1 = c.tree := by
  unfold Machine.store
  cases h : findCommit c m.commits with
  | some i =>
    simp [Machine.treeOf, findCommit_getElem c m.commits i h]
  | none =>
    simp [Machine.treeOf]

theorem store_tips (m : Machine) (c : Commit) : (m.store c).2.tips = m.tips := by
  unfold Machine.store
  split <;> rfl

theorem store_head (m : Machine) (c : Commit) : (m.store c).2.head = m.head := by
  unfold Machine.store
  split <;> rfl

theorem mergeFile_first (fo ft f : File) (hne : fo.content ≠ "")
    (h : mergeFile fo ft = some f) : f = fo := by
  unfold mergeFile at h
  split at h
  · exact (Option.some.inj h).symm
  · cases h
  · cases h
  · split_ifs at h
    · exact (Option.some.inj h).symm
    · exact (Option.some.inj h).symm

theorem mergeFile_none_comm (fo ft : File) (h : mergeFile fo ft = none) :
    mergeFile ft fo = none := by
  obtain ⟨ko, co⟩ := fo
  obtain ⟨kt, ct⟩ := ft
  cases ko <;> cases kt <;> simp [mergeFile] at h ⊢ <;> (split_ifs at h)

theorem verdict_none_conflict (o t : Option File)
    (h : verdict none o t = .conflict) :
    ∃ fo ft, o = some fo ∧ t = some ft ∧ mergeFile fo ft = none := by
  unfold verdict at h
  split_ifs at h
  cases o with
  | none => simp_all
  | some fo =>
    cases t with
    | none => simp_all
    | some ft =>
      refine ⟨fo, ft, rfl, rfl, ?_⟩
      cases hm : mergeFile fo ft with
      | none => rfl
      | some f => simp [hm] at h

theorem verdict_none_not_beyond (o t : Option File) : verdict none o t ≠ .beyond := by
  unfold verdict
  split_ifs
  · simp
  · simp
  · simp
  · cases o with
    | none => simp_all
    | some fo =>
      cases t with
      | none => simp_all
      | some ft =>
        cases hm : mergeFile fo ft <;> simp [hm]

theorem clash_comm (a b : Files) : a.clash b = b.clash a := by
  rw [Bool.eq_iff_iff]
  simp only [Files.clash, List.any_eq_true, Bool.or_eq_true]
  constructor
  · rintro ⟨e, he, f, hf, h⟩
    exact ⟨f, hf, e, he, h.symm⟩
  · rintro ⟨e, he, f, hf, h⟩
    exact ⟨f, hf, e, he, h.symm⟩

theorem mem_mergePaths_left (a b : Files) (q : String) (f : File) (h : a.lookup q = some f) :
    q ∈ mergePaths a b :=
  List.mem_append_left _ (mem_paths_of_lookup q f a h)

theorem mergeConflict_comm (a b : Files) (h : mergeConflict [] a b = false) :
    mergeConflict [] b a = false := by
  simp only [mergeConflict, Bool.or_eq_false_iff, List.any_eq_false, List.lookup_nil,
    beq_iff_eq] at h ⊢
  refine ⟨by rw [clash_comm]; exact h.1, ?_⟩
  intro q _ hq
  obtain ⟨fo, ft, ho, ht, hm⟩ := verdict_none_conflict _ _ hq
  have hmem := mem_mergePaths_left a b q ft ht
  apply h.2 q hmem
  have hne : ft ≠ fo := by
    intro e
    subst e
    obtain ⟨k, c⟩ := ft
    cases k <;> simp [mergeFile] at hm
  simp [verdict, ho, ht, hne, mergeFile_none_comm fo ft hm]

theorem bases_comm (m : Machine) (h t : Nat) : m.bases h t = m.bases t h := by
  have hc : (fun c => decide (c ∈ m.ancestors h) && decide (c ∈ m.ancestors t)) =
      (fun c => decide (c ∈ m.ancestors t) && decide (c ∈ m.ancestors h)) :=
    funext (fun c => Bool.and_comm _ _)
  unfold Machine.bases
  rw [hc]

theorem relate_diverged_comm (m : Machine) (h t b : Nat)
    (hr : m.relate h t = .diverged b) : m.relate t h = .diverged b := by
  unfold Machine.relate at hr ⊢
  by_cases h1 : t ∈ m.ancestors h
  · simp [h1] at hr
  · by_cases h2 : h ∈ m.ancestors t
    · simp [h1, h2] at hr
    · simp only [h1, h2, if_false] at hr ⊢
      rw [bases_comm m t h]
      exact hr

theorem mergeSure_root (a b : Files) (ha : a.ordinary = true) (hb : b.ordinary = true) :
    mergeSure [] a b = true := by
  simp only [mergeSure, ha, hb, Bool.and_true, Bool.and_eq_true, List.all_eq_true,
    List.lookup_nil]
  refine ⟨⟨by decide, by simp [Files.paths]⟩, ?_⟩
  intro q _
  have := verdict_none_not_beyond (a.lookup q) (b.lookup q)
  simpa using this

theorem mergeResult_first (a b : Files) (p : String) (fA fB : File)
    (hconf : mergeConflict [] a b = false) (hpA : a.lookup p = some fA)
    (hpB : b.lookup p = some fB) (hne : fA.content ≠ "") :
    (mergeResult [] a b).lookup p = some fA := by
  have hmem := mem_mergePaths_left a b p fA hpA
  unfold mergeResult
  rw [lookup_filterMap_keys (mergePick [] a b) p _ hmem]
  simp only [mergeConflict, Bool.or_eq_false_iff, List.any_eq_false, List.lookup_nil,
    beq_iff_eq] at hconf
  have hnc := hconf.2 p hmem
  simp only [hpA, hpB] at hnc
  simp only [mergePick, List.lookup_nil, hpA, hpB]
  unfold verdict at hnc ⊢
  by_cases he : fA = fB
  · simp [he]
  · have he2 : (some fA : Option File) ≠ some fB := fun e => he (Option.some.inj e)
    simp only [he2, if_false] at hnc ⊢
    simp only [show ((some fA : Option File) = none) = False from by simp,
      show ((some fB : Option File) = none) = False from by simp, if_false] at hnc ⊢
    cases hm : mergeFile fA fB with
    | none => simp [hm] at hnc
    | some f =>
      have := mergeFile_first fA fB f hne hm
      subst this
      simp

theorem merge_first_wins (s : Machine) (m : merger) (A B : ImageReference) (ia ib r : Nat)
    (fA fB : File) (p : String) (tr : List Op) (hm : m.refs = [A, B])
    (hrepo : s.repoDir = some m.gitDir) (hexact : s.exact = true) (hclean : s.clean = true)
    (hA : s.tips.lookup A.Name = some ia) (hB : s.tips.lookup B.Name = some ib)
    (hrel : s.relate ia ib = .diverged r) (hroot : s.treeOf r = [])
    (hordA : (s.treeOf ia).ordinary = true) (hordB : (s.treeOf ib).ordinary = true)
    (hconf : mergeConflict [] (s.treeOf ia) (s.treeOf ib) = false)
    (hpA : (s.treeOf ia).lookup p = some fA) (hpB : (s.treeOf ib).lookup p = some fB)
    (hne : fA.content ≠ "") :
    (m.merge gitWorld ⟨s, tr⟩).1 = .ok () ∧
    (m.merge gitWorld ⟨s, tr⟩).2.state.headTree.lookup p = some fA ∧
    (m.merge gitWorld ⟨s, tr⟩).2.state.exact = true := by
  simp only [Machine.clean, Bool.and_eq_true, decide_eq_true_eq] at hclean
  obtain ⟨hwork, hindex⟩ := hclean
  have hunt : s.untracked = [] := by
    simp only [Machine.untracked, hwork, without_self]
  obtain ⟨s1, hs1⟩ : ∃ s1, s1 = s.switchTo A.Name (s.treeOf ia) := ⟨_, rfl⟩
  have e1 : s1.repoDir = some m.gitDir := by rw [hs1]; exact hrepo
  have e2 : s1.tips = s.tips := by rw [hs1]; rfl
  have e3 : s1.head = A.Name := by rw [hs1]; rfl
  have e4 : ∀ i, s1.treeOf i = s.treeOf i := fun _ => by rw [hs1]; rfl
  have e5 : s1.relate ia ib = .diverged r := by rw [hs1]; exact hrel
  have e6 : s1.work = s.treeOf ia := by
    rw [hs1]
    simp [Machine.switchTo, hunt, Files.without]
  have e7 : s1.index = s.treeOf ia := by rw [hs1]; rfl
  have e8 : s1.headTree = s.treeOf ia := by
    simp only [Machine.headTree, e2, e3, hA, Option.map_some', Option.getD_some, e4]
  have e9 : s1.clean = true := by
    simp [Machine.clean, e6, e7, e8]
  have e10 : s1.exact = true := by
    rw [hs1]
    simp [Machine.switchTo, hexact, Machine.clean, hwork, hindex]
  obtain ⟨c, hc⟩ : ∃ c : Commit, c = ⟨[ia, ib], mergeResult [] (s.treeOf ia) (s.treeOf ib),
      mergeMessage A.Name B.Name⟩ := ⟨_, rfl⟩
  have hco : gitRun (.gitCheckout m.gitDir A.Name) s = (none, s1) := by
    rw [hs1]
    simp [gitRun, hrepo, hA]
  have hrun : gitRun (.gitMerge m.gitDir B.Name "ours") s1 =
      (none, { ((s1.store c).2.setTip (s1.store c).1).switchTo A.Name c.tree
               with exact := true }) := by
    simp only [gitRun, e1, e2, e3, hA, hB, e5, e4, hroot, hconf, if_true, e10, e9,
      mergeSure_root _ _ hordA hordB, Bool.and_self, hc]
    simp
  have hw : gitWorld.run = gitRun := rfl
  have hmerge : m.merge gitWorld ⟨s, tr⟩ =
      (.ok (), ⟨{ ((s1.store c).2.setTip (s1.store c).1).switchTo A.Name c.tree
                  with exact := true },
        tr ++ [.gitCheckout m.gitDir A.Name] ++ [.gitMerge m.gitDir B.Name "ours"]⟩) := by
    simp only [merger.merge, hm, mergeLoop, issue, hw, hco, hrun]
  rw [hmerge]
  refine ⟨rfl, ?_, rfl⟩
  have hsome : (List.lookup A.Name s.tips).isSome = true := by rw [hA]; rfl
  have htip : ((s1.store c).2.setTip (s1.store c).1).tips.lookup A.Name
      = some (s1.store c).1 := by
    simp only [Machine.setTip, store_tips, store_head, e2, e3, hsome, if_true]
    exact lookup_set_tip A.Name _ s.tips hsome
  have hhead : ({ ((s1.store c).2.setTip (s1.store c).1).switchTo A.Name c.tree
      with exact := true } : Machine).headTree = (s1.store c).2.treeOf (s1.store c).1 := by
    show ((((s1.store c).2.setTip (s1.store c).1).tips.lookup A.Name).map
      (s1.store c).2.treeOf).getD [] = _
    rw [htip]
    rfl
  show List.lookup p (Machine.headTree _) = some fA
  rw [hhead, store_treeOf, hc]
  exact mergeResult_first _ _ p fA fB hconf hpA hpB hne

/-- C1 (amended). Ours wins, by source order, where `git merge -X ours` has to
decide between two non-empty files.  In a clean repository with the branches of
the images A and B, whose histories diverged from a merge base with the empty
tree (the super-root: the images share no leading layer), whose trees are
ordinary (no `.gitignore`, `.gitattributes` or `.git` path) and merge without a
conflict left open (no file/directory clash, no path with two file modes or
types), with files of different, non-empty contents at the path `p`: `merge` for
the sources `[A, B]` succeeds and the tree it produces has the file of A at `p`;
`merge` for `[B, A]` succeeds and the tree has the file of B at `p`.  Both runs
stay within what the model of `git` follows. -/
theorem merge_ours_wins (s : Machine) (m : merger) (A B : ImageReference) (ia ib r : Nat)
    (fA fB : File) (p : String) (tr : List Op)
    (hrepo : s.repoDir = some m.gitDir) (hexact : s.exact = true) (hclean : s.clean = true)
    (hA : s.tips.lookup A.Name = some ia) (hB : s.tips.lookup B.Name = some ib)
    (hrel : s.relate ia ib = .diverged r) (hroot : s.treeOf r = [])
    (hordA : (s.treeOf ia).ordinary = true) (hordB : (s.treeOf ib).ordinary = true)
    (hconf : mergeConflict [] (s.treeOf ia) (s.treeOf ib) = false)
    (hpA : (s.treeOf ia).lookup p = some fA) (hpB : (s.treeOf ib).lookup p = some fB)
    (hdiff : fA.content ≠ fB.content) (hneA : fA.content ≠ "") (hneB : fB.content ≠ "") :
    (({ m with refs := [A, B] } : merger).merge gitWorld ⟨s, tr⟩).1 = .ok () ∧
    (({ m with refs := [A, B] } : merger).merge gitWorld ⟨s, tr⟩).2.state.headTree.lookup p
      = some fA ∧
    (({ m with refs := [A, B] } : merger).merge gitWorld ⟨s, tr⟩).2.state.headTree.lookup p
      ≠ some fB ∧
    (({ m with refs := [A, B] } : merger).merge gitWorld ⟨s, tr⟩).2.state.exact = true ∧
    (({ m with refs := [B, A] } : merger).merge gitWorld ⟨s, tr⟩).1 = .ok () ∧
    (({ m with refs := [B, A] } : merger).merge gitWorld ⟨s, tr⟩).2.state.headTree.lookup p
      = some fB ∧
    (({ m with refs := [B, A] } : merger).merge gitWorld ⟨s, tr⟩).2.state.headTree.lookup p
      ≠ some fA ∧
    (({ m with refs := [B, A] } : merger).merge gitWorld ⟨s, tr⟩).2.state.exact = true := by
  obtain ⟨a1, a2, a3⟩ := merge_first_wins s { m with refs := [A, B] } A B ia ib r fA fB p tr
    rfl hrepo hexact hclean hA hB hrel hroot hordA hordB hconf hpA hpB hneA
  obtain ⟨b1, b2, b3⟩ := merge_first_wins s { m with refs := [B, A] } B A ib ia r fB fA p tr
    rfl hrepo hexact hclean hB hA (relate_diverged_comm s ia ib r hrel) hroot hordB hordA
    (mergeConflict_comm _ _ hconf) hpB hpA hneB
  have hAB : fA ≠ fB := fun e => hdiff (by rw [e])
  refine ⟨a1, a2, ?_, a3, b1, b2, ?_, b3⟩
  · rw [a2]
    exact fun e => hAB (Option.some.inj e)
  · rw [b2]
    exact fun e => hAB (Option.some.inj e).symm

theorem merge_ours_wins_witness :
    sampleRepo.relate 1 2 = .diverged 0 ∧ sampleRepo.treeOf 0 = [] ∧
      (sampleRepo.treeOf 1).contents =
        [("sha256:aa.tar.gz", "blob-aa"), ("a", "1"), ("shared", "X")] ∧
      (sampleRepo.treeOf 2).contents =
        [("sha256:bb.tar.gz", "blob-bb"), ("b", "2"), ("shared", "Y")] ∧
      ((sampleMerger [refA, refB]).merge gitWorld ⟨sampleRepo, []⟩).2.state.headTree.lookup
        "shared" = some ⟨.regular, "X"⟩ ∧
      ((sampleMerger [refB, refA]).merge gitWorld ⟨sampleRepo, []⟩).2.state.headTree.lookup
        "shared" = some ⟨.regular, "Y"⟩ ∧
      ((sampleMerger [refA, refB]).merge gitWorld ⟨sampleRepo, []⟩).2.state.headTree.contents =
        [("sha256:aa.tar.gz", "blob-aa"), ("a", "1"), ("shared", "X"),
         ("sha256:bb.tar.gz", "blob-bb"), ("b", "2")] ∧
      (MergeImages gitWorld "merged:latest" ["imageA", "imageB"]
        (Machine.fresh sampleImages false).start).2.state.work.contents.lookup "shared"
        = some "X" ∧
      (MergeImages gitWorld "merged:latest" ["imageB", "imageA"]
        (Machine.fresh sampleImages false).start).2.state.work.contents.lookup "shared"
        = some "Y" := by
  have h := merge_ours_wins sampleRepo (sampleMerger []) refA refB 1 2 0
    ⟨.regular, "X"⟩ ⟨.regular, "Y"⟩ "shared" [] rfl (by decide) (by decide) (by decide)
    (by decide) (by decide) (by decide) (by decide) (by decide) (by decide) (by decide)
    (by decide) (by decide) (by decide) (by decide)
  exact ⟨by decide, by decide, by decide, by decide, h.2.1, h.2.2.2.2.2.1, by decide,
    by decide, by decide⟩

/-- C1, as first stated, fails, in two ways.  The image E holds an empty file
`shared` and the image B the file `shared = Y`; they share no layer.  The merge
for `[E, B]` leaves `Y` at `shared`, the content of B: merged by lines, the
empty file of E has no line to keep.  The image `short` is one layer with
`shared = X`, the image `long` is the same layer with a layer on top that makes
`shared = YY`; their branches share the commit of the first layer, the merge
for `[short, long]` is a fast-forward and leaves `YY`, the content of `long`. -/
theorem first_source_does_not_always_win :
    (finalFiles [layerEmpty]).lookup "shared" = some "" ∧
    (finalFiles [layerB]).lookup "shared" = some "Y" ∧
    (MergeImages gitWorld "merged:latest" ["imageE", "imageB"]
      (Machine.fresh oddImages false).start).1 = .ok () ∧
    (MergeImages gitWorld "merged:latest" ["imageE", "imageB"]
      (Machine.fresh oddImages false).start).2.state.headTree.contents.lookup "shared"
      = some "Y" ∧
    (MergeImages gitWorld "merged:latest" ["imageE", "imageB"]
      (Machine.fresh oddImages false).start).2.state.work.contents.lookup "shared"
      = some "Y" ∧
    (MergeImages gitWorld "merged:latest" ["imageE", "imageB"]
      (Machine.fresh oddImages false).start).2.state.exact = true ∧
    (finalFiles [layerShared]).lookup "shared" = some "X" ∧
    (finalFiles [layerShared, layerTop]).lookup "shared" = some "YY" ∧
    (MergeImages gitWorld "merged:latest" ["short", "long"]
      (Machine.fresh oddImages false).start).1 = .ok () ∧
    (MergeImages gitWorld "merged:latest" ["short", "long"]
      (Machine.fresh oddImages false).start).2.state.headTree.contents.lookup "shared"
      = some "YY" ∧
    (MergeImages gitWorld "merged:latest" ["short", "long"]
      (Machine.fresh oddImages false).start).2.state.work.contents.lookup "shared"
      = some "YY" ∧
    (MergeImages gitWorld "merged:latest" ["short", "long"]
      (Machine.fresh oddImages false).start).2.state.exact = true := by
  decide

/-! ## The pipeline -/

theorem NoRemoval.refl (r : Run σ) : NoRemoval r r := fun _ h _ => h

theorem NoRemoval.trans {a b c : Run σ} (h1 : NoRemoval a b) (h2 : NoRemoval b c) :
    NoRemoval a c := fun x hx hr => h1 x (h2 x hx hr) hr

theorem NoRemoval.step (r : Run σ) (s : σ) (c : Op) (hc : c.isRemoveAll = false) :
    NoRemoval r ⟨s, r.trace ++ [c]⟩ := by
  intro x hx hr
  simp only [List.mem_append, List.mem_singleton] at hx
  rcases hx with hx | hx
  · exact hx
  · subst hx
    rw [hc] at hr
    cases hr

theorem parseReferencesLoop_noRemoval (w : World σ) (refs : List String)
    (acc : List ImageReference) (r : Run σ) :
    NoRemoval r (parseReferencesLoop w refs acc r).2 := by
  obtain ⟨_, ops, h2, h3⟩ := parseReferencesLoop_trace w refs acc r
  intro c hc hrem
  rw [h2] at hc
  rcases List.mem_append.mp hc with hc | hc
  · exact hc
  · have := h3 c hc
    cases c <;> simp [Op.isParse, Op.isRemoveAll] at this hrem

theorem New_noRemoval (w : World σ) (tag : String) (refs : List String) (r : Run σ) :
    NoRemoval r (New w tag refs r).2 := by
  have h0 : NoRemoval r (parseReferences w refs ⟨r.state, r.trace ++ [Op.parseName tag]⟩).2 :=
    NoRemoval.trans (NoRemoval.step r r.state (Op.parseName tag) rfl)
      (parseReferencesLoop_noRemoval w refs [] _)
  unfold New
  generalize parseReferences w refs ⟨r.state, r.trace ++ [Op.parseName tag]⟩ = res at h0 ⊢
  obtain ⟨o, r2⟩ := res
  simp only [issue]
  repeat' split
  all_goals
    try simp only [Prod.mk.injEq] at *
    try casesm* _ ∧ _
    subst_vars
    intro c hc hrem
    try simp only [List.mem_append, List.mem_singleton] at hc
    try casesm* _ ∨ _
    all_goals
      first
      | assumption
      | exact h0 c (by assumption) hrem
      | (subst_vars; simp [Op.isRemoveAll] at hrem)

theorem createImage_noRemoval (w : World σ) (m : merger) (r : Run σ) :
    NoRemoval r (m.createImage w r).2.2 := by
  have h0 := NoRemoval.refl r
  unfold merger.createImage
  simp only [issue]
  repeat' split
  all_goals
    try simp only [Prod.mk.injEq] at *
    try casesm* _ ∧ _
    subst_vars
    intro c hc hrem
    try simp only [List.mem_append, List.mem_singleton] at hc
    try casesm* _ ∨ _
    all_goals
      first
      | assumption
      | exact h0 c (by assumption) hrem
      | (subst_vars; simp [Op.isRemoveAll] at hrem)

theorem loadImg_noRemoval (w : World σ) (m : merger) (r : Run σ) :
    NoRemoval r (m.loadImg w r).2 := by
  have h0 := NoRemoval.refl r
  unfold merger.loadImg
  simp only [issue]
  repeat' split
  all_goals
    try simp only [Prod.mk.injEq] at *
    try casesm* _ ∧ _
    subst_vars
    intro c hc hrem
    try simp only [List.mem_append, List.mem_singleton] at hc
    try casesm* _ ∨ _
    all_goals
      first
      | assumption
      | exact h0 c (by assumption) hrem
      | (subst_vars; simp [Op.isRemoveAll] at hrem)

theorem mergeLoop_noRemoval (w : World σ) (gitDir : String) :
    ∀ (rest : List ImageReference) (r : Run σ), NoRemoval r (mergeLoop w gitDir rest r).2 := by
  intro rest
  induction rest with
  | nil =>
    intro r
    exact NoRemoval.refl r
  | cons a rest ih =>
    intro r
    unfold mergeLoop
    have h1 : NoRemoval r (issue w (Op.gitMerge gitDir a.Name "ours") r).2 :=
      NoRemoval.step r _ _ rfl
    generalize issue w (Op.gitMerge gitDir a.Name "ours") r = res at h1 ⊢
    obtain ⟨o, r1⟩ := res
    cases o with
    | some e => exact h1
    | none => exact h1.trans (ih r1)

theorem merge_noRemoval (w : World σ) (m : merger) (r : Run σ) :
    NoRemoval r (m.merge w r).2 := by
  unfold merger.merge
  split
  · exact NoRemoval.refl r
  · rename_i baseImg rest _
    have h1 : NoRemoval r (issue w (Op.gitCheckout m.gitDir baseImg.Name) r).2 :=
      NoRemoval.step r _ _ rfl
    generalize issue w (Op.gitCheckout m.gitDir baseImg.Name) r = res at h1 ⊢
    obtain ⟨o, r1⟩ := res
    cases o with
    | some e => exact h1
    | none => exact h1.trans (mergeLoop_noRemoval w m.gitDir rest r1)

theorem processLayers_noRemoval (w : World σ) (git dir : String) :
    ∀ (layers : List LayerInfo) (r : Run σ),
      NoRemoval r (processLayers w git dir layers r).2 := by
  intro layers
  induction layers with
  | nil =>
    intro r
    exact NoRemoval.refl r
  | cons li rest ih =>
    intro r
    have h0 := NoRemoval.refl r
    unfold processLayers
    simp only [issue]
    repeat' split
    all_goals try refine NoRemoval.trans ?_ (ih _)
    all_goals
      try simp only [Prod.mk.injEq] at *
      try casesm* _ ∧ _
      subst_vars
      intro c hc hrem
      try simp only [List.mem_append, List.mem_singleton] at hc
      try casesm* _ ∨ _
      all_goals
        first
        | assumption
        | exact h0 c (by assumption) hrem
        | (subst_vars; simp [Op.isRemoveAll] at hrem)

theorem processImage_noRemoval (w : World σ) (a : ImageReference) (git dir : String)
    (r : Run σ) : NoRemoval r (processImage w a git dir r).2 := by
  have h0 := NoRemoval.refl r
  unfold processImage
  simp only [issue]
  repeat' split
  all_goals try refine NoRemoval.trans ?_ (processLayers_noRemoval w git dir _ _)
  all_goals
    try simp only [Prod.mk.injEq] at *
    try casesm* _ ∧ _
    subst_vars
    intro c hc hrem
    try simp only [List.mem_append, List.mem_singleton] at hc
    try casesm* _ ∨ _
    all_goals
      first
      | assumption
      | exact h0 c (by assumption) hrem
      | (subst_vars; simp [Op.isRemoveAll] at hrem)

theorem createRepoLoop_noRemoval (w : World σ) (gitDir : String) :
    ∀ (refs : List ImageReference) (r : Run σ),
      NoRemoval r (createRepoLoop w gitDir refs r).2 := by
  intro refs
  induction refs with
  | nil =>
    intro r
    exact NoRemoval.refl r
  | cons a rest ih =>
    intro r
    unfold createRepoLoop
    have h1 := processImage_noRemoval w a gitDir gitDir r
    generalize processImage w a gitDir gitDir r = res at h1 ⊢
    obtain ⟨o, r1⟩ := res
    cases o with
    | ok u => exact h1.trans (ih r1)
    | error e => exact h1
    | crash => exact h1

theorem createRepo_noRemoval (w : World σ) (m : merger) (r : Run σ) :
    NoRemoval r (m.createRepo w r).2 := by
  have h0 := NoRemoval.refl r
  unfold merger.createRepo
  simp only [issue]
  repeat' split
  all_goals try refine NoRemoval.trans ?_ (createRepoLoop_noRemoval w m.gitDir _ _)
  all_goals
    try simp only [Prod.mk.injEq] at *
    try casesm* _ ∧ _
    subst_vars
    intro c hc hrem
    try simp only [List.mem_append, List.mem_singleton] at hc
    try casesm* _ ∨ _
    all_goals
      first
      | assumption
      | exact h0 c (by assumption) hrem
      | (subst_vars; simp [Op.isRemoveAll] at hrem)

/-- Stage errors.  With at least two sources `MergeImages` runs `New`,
`createRepo`, `merge`, `createImage`, `loadImg` in this order, each stage starting
where the one before ended.  If a stage returns an error, `MergeImages` returns
that error wrapped with the label of the stage and ends in the very run in which
the stage ended: no later stage runs and none runs again.  `MergeImages`
succeeds exactly when all five stages succeeded, and it performs no `RemoveAll`:
`Close` is not called and the temporary directory stays. -/
theorem MergeImages_pipeline (w : World σ) (tag : String) (refs : List String) (r : Run σ)
    (h2 : 2 ≤ refs.length) :
    (∀ e r1, New w tag refs r = (.error e, r1) →
      MergeImages w tag refs r = (.error (wrap e "merger"), r1)) ∧
    (∀ m r1 e r2, New w tag refs r = (.ok m, r1) → m.createRepo w r1 = (.error e, r2) →
      MergeImages w tag refs r = (.error (wrap e "create repo"), r2)) ∧
    (∀ m r1 r2 e r3, New w tag refs r = (.ok m, r1) → m.createRepo w r1 = (.ok (), r2) →
      m.merge w r2 = (.error e, r3) →
      MergeImages w tag refs r = (.error (wrap e "merge"), r3)) ∧
    (∀ m r1 r2 r3 m4 e r4, New w tag refs r = (.ok m, r1) →
      m.createRepo w r1 = (.ok (), r2) → m.merge w r2 = (.ok (), r3) →
      m.createImage w r3 = (m4, .error e, r4) →
      MergeImages w tag refs r = (.error (wrap e "create image"), r4)) ∧
    (∀ m r1 r2 r3 m4 r4 e r5, New w tag refs r = (.ok m, r1) →
      m.createRepo w r1 = (.ok (), r2) → m.merge w r2 = (.ok (), r3) →
      m.createImage w r3 = (m4, .ok (), r4) → m4.loadImg w r4 = (.error e, r5) →
      MergeImages w tag refs r = (.error (wrap e "load img"), r5)) ∧
    ((MergeImages w tag refs r).1 = .ok () ↔
      ∃ m r1 r2 r3 m4 r4 r5, New w tag refs r = (.ok m, r1) ∧
        m.createRepo w r1 = (.ok (), r2) ∧ m.merge w r2 = (.ok (), r3) ∧
        m.createImage w r3 = (m4, .ok (), r4) ∧ m4.loadImg w r4 = (.ok (), r5) ∧
        MergeImages w tag refs r = (.ok (), r5)) ∧
    (∀ c ∈ (MergeImages w tag refs r).2.trace, c.isRemoveAll = true → c ∈ r.trace) := by
  have hlen : ¬ refs.length < 2 := by omega
  refine ⟨?_, ?_, ?_, ?_, ?_, ?_, ?_⟩
  · intro e r1 h
    simp [MergeImages, hlen, h]
  · intro m r1 e r2 h1 h
    simp [MergeImages, hlen, h1, h]
  · intro m r1 r2 e r3 h1 h2 h
    simp [MergeImages, hlen, h1, h2, h]
  · intro m r1 r2 r3 m4 e r4 h1 h2 h3 h
    simp [MergeImages, hlen, h1, h2, h3, h]
  · intro m r1 r2 r3 m4 r4 e r5 h1 h2 h3 h4 h
    simp [MergeImages, hlen, h1, h2, h3, h4, h]
  · constructor
    · intro h
      simp only [MergeImages, hlen, if_false] at h ⊢
      rcases h1 : New w tag refs r with ⟨o1, r1⟩
      rw [h1] at h
      cases o1 with
      | error e => simp at h
      | crash => simp at h
      | ok m =>
        rcases h2 : m.createRepo w r1 with ⟨o2, r2⟩
        simp only [h2] at h
        cases o2 with
        | error e => simp at h
        | crash => simp at h
        | ok u2 =>
          rcases h3 : m.merge w r2 with ⟨o3, r3⟩
          simp only [h3] at h
          cases o3 with
          | error e => simp at h
          | crash => simp at h
          | ok u3 =>
            rcases h4 : m.createImage w r3 with ⟨m4, o4, r4⟩
            simp only [h4] at h
            cases o4 with
            | error e => simp at h
            | crash => simp at h
            | ok u4 =>
              rcases h5 : m4.loadImg w r4 with ⟨o5, r5⟩
              simp only [h5] at h
              cases o5 with
              | error e => simp at h
              | crash => simp at h
              | ok u5 =>
                exact ⟨m, r1, r2, r3, m4, r4, r5, rfl, h2, h3, h4, h5, by simp [h2, h3, h4, h5]⟩
    · rintro ⟨m, r1, r2, r3, m4, r4, r5, -, -, -, -, -, h⟩
      rw [h]
  · have key : NoRemoval r (MergeImages w tag refs r).2 := by
      simp only [MergeImages, hlen, if_false]
      have n1 := New_noRemoval w tag refs r
      rcases h1 : New w tag refs r with ⟨o1, r1⟩
      rw [h1] at n1
      cases o1 with
      | error e => exact n1
      | crash => exact n1
      | ok m =>
        dsimp only
        have n2 := createRepo_noRemoval w m r1
        rcases h2 : m.createRepo w r1 with ⟨o2, r2⟩
        rw [h2] at n2
        cases o2 with
        | error e => exact n1.trans n2
        | crash => exact n1.trans n2
        | ok u2 =>
          dsimp only
          have n3 := merge_noRemoval w m r2
          rcases h3 : m.merge w r2 with ⟨o3, r3⟩
          rw [h3] at n3
          cases o3 with
          | error e => exact (n1.trans n2).trans n3
          | crash => exact (n1.trans n2).trans n3
          | ok u3 =>
            dsimp only
            have n4 := createImage_noRemoval w m r3
            rcases h4 : m.createImage w r3 with ⟨m4, o4, r4⟩
            rw [h4] at n4
            cases o4 with
            | error e => exact ((n1.trans n2).trans n3).trans n4
            | crash => exact ((n1.trans n2).trans n3).trans n4
            | ok u4 =>
              dsimp only
              have n5 := loadImg_noRemoval w m4 r4
              rcases h5 : m4.loadImg w r4 with ⟨o5, r5⟩
              rw [h5] at n5
              cases o5 with
              | error e => exact (((n1.trans n2).trans n3).trans n4).trans n5
              | crash => exact (((n1.trans n2).trans n3).trans n4).trans n5
              | ok u5 => exact (((n1.trans n2).trans n3).trans n4).trans n5
    exact key

theorem loadImg_panics (w : World σ) (m : merger) (r : Run σ) (e : Error)
    (hopen : (w.run (.openFile m.outputFile) r.state).1 = none)
    (hload : (w.imageLoad m.outputFile (w.run (.openFile m.outputFile) r.state).2).1
      = (false, some e)) :
    m.loadImg w r = (.crash, (m.loadImg w r).2) := by
  unfold merger.loadImg
  simp only [issue, hopen]
  generalize hx : w.imageLoad m.outputFile (w.run (Op.openFile m.outputFile) r.state).2 = x
    at hload
  obtain ⟨⟨b, err⟩, s2⟩ := x
  simp only [Prod.mk.injEq] at hload
  obtain ⟨rfl, rfl⟩ := hload
  simp

/-- C9. The pipeline at a failing load stage.  With at least two sources, when
`New`, `createRepo`, `merge` and `createImage` have succeeded, the artifact can be
opened and the load call of the image store returns an error (with it, a
response without body): `MergeImages` does not return the error of the stage
wrapped with "load img"; it returns no error at all, it panics, on the
`resp.Body.Close()` that `loadImg` defers before it looks at the error. -/
theorem MergeImages_load_failure_panics (w : World σ) (tag : String) (refs : List String)
    (r : Run σ) (h2 : 2 ≤ refs.length) (m m4 : merger) (r1 r2 r3 r4 : Run σ) (e : Error)
    (hNew : New w tag refs r = (.ok m, r1)) (hRepo : m.createRepo w r1 = (.ok (), r2))
    (hMerge : m.merge w r2 = (.ok (), r3)) (hImage : m.createImage w r3 = (m4, .ok (), r4))
    (hopen : (w.run (.openFile m4.outputFile) r4.state).1 = none)
    (hload : (w.imageLoad m4.outputFile (w.run (.openFile m4.outputFile) r4.state).2).1
      = (false, some e)) :
    (MergeImages w tag refs r).1 = .crash ∧
    (∀ x, (MergeImages w tag refs r).1 ≠ .error x) ∧
    (MergeImages w tag refs r).2.trace =
      r4.trace ++ [.openFile m4.outputFile, .imageLoad m4.outputFile] := by
  have hlen : ¬ refs.length < 2 := by omega
  have hl := loadImg_panics w m4 r4 e hopen hload
  have htr : (m4.loadImg w r4).2.trace =
      r4.trace ++ [.openFile m4.outputFile, .imageLoad m4.outputFile] := by
    unfold merger.loadImg
    simp only [issue, hopen]
    generalize hx : w.imageLoad m4.outputFile (w.run (Op.openFile m4.outputFile) r4.state).2
      = x at hload
    obtain ⟨⟨b, err⟩, s2⟩ := x
    simp only [Prod.mk.injEq] at hload
    obtain ⟨rfl, rfl⟩ := hload
    simp
  have hM : MergeImages w tag refs r = (.crash, (m4.loadImg w r4).2) := by
    simp only [MergeImages, hlen, if_false, hNew, hRepo, hMerge, hImage]
    rw [hl]
  rw [hM]
  refine ⟨rfl, ?_, htr⟩
  intro x h
  cases h

theorem MergeImages_load_failure_panics_witness :
    2 ≤ ["imageA", "imageB"].length ∧
      (MergeImages gitWorld "merged:latest" ["imageA", "imageB"]
        (Machine.fresh sampleImages true).start).1 = .crash ∧
      (MergeImages gitWorld "merged:latest" ["imageA", "imageB"]
        (Machine.fresh sampleImages true).start).1 ≠
        .error "load img: loading img: Error response from daemon" ∧
      Op.imageLoad "/tmp/m/build/output.tar.gz" ∈
        (MergeImages gitWorld "merged:latest" ["imageA", "imageB"]
          (Machine.fresh sampleImages true).start).2.trace := by
  have h := MergeImages_load_failure_panics gitWorld "merged:latest" ["imageA", "imageB"]
    (Machine.fresh sampleImages true).start (by decide) _ _ _ _ _ _
    "Error response from daemon" rfl rfl rfl rfl (by decide) (by decide)
  exact ⟨by decide, h.1, h.2.1 _, by decide⟩

/-! ## Loading the artifact -/

/-- C8. In every world: when the output artifact can be opened and the load call
of the image store returns an error (and, with it, a response without body),
`loadImg` does not return that error: it panics on `resp.Body.Close()`, which is
deferred before the error is looked at. -/
theorem loadImg_crashes_when_load_fails (w : World σ) (m : merger) (r : Run σ) (e : Error)
    (hopen : (w.run (.openFile m.outputFile) r.state).1 = none)
    (hload : (w.imageLoad m.outputFile (w.run (.openFile m.outputFile) r.state).2).1
      = (false, some e)) :
    (m.loadImg w r).1 = .crash ∧
    (m.loadImg w r).2.trace = r.trace ++ [.openFile m.outputFile, .imageLoad m.outputFile] := by
  unfold merger.loadImg
  simp only [issue, hopen]
  generalize hx : w.imageLoad m.outputFile (w.run (Op.openFile m.outputFile) r.state).2 = x
    at hload
  obtain ⟨⟨b, err⟩, s2⟩ := x
  simp only [Prod.mk.injEq] at hload
  obtain ⟨rfl, rfl⟩ := hload
  simp

theorem loadImg_crashes_when_load_fails_witness :
    (gitWorld.imageLoad "/tmp/m/build/output.tar.gz"
        { Machine.fresh [] true with outside := [("/tmp/m/build/output.tar.gz", "image")] }).1
      = (false, some "Error response from daemon") ∧
    (({ sampleMerger [] with outputFile := "/tmp/m/build/output.tar.gz" } : merger).loadImg
      gitWorld
      ⟨{ Machine.fresh [] true with outside := [("/tmp/m/build/output.tar.gz", "image")] },
        []⟩).1 = .crash ∧
    (MergeImages gitWorld "merged:latest" ["imageA", "imageB"]
      (Machine.fresh sampleImages true).start).1 = .crash :=
  ⟨by decide,
    (loadImg_crashes_when_load_fails gitWorld
      { sampleMerger [] with outputFile := "/tmp/m/build/output.tar.gz" }
      ⟨{ Machine.fresh [] true with outside := [("/tmp/m/build/output.tar.gz", "image")] }, []⟩
      "Error response from daemon" (by decide) (by decide)).1,
    by decide⟩

/-! ## Replaying the layers -/

/-- C5. The image A has one layer with the files `a` and `shared`.  After
`createRepo` has replayed it with success, the tip of the branch of A tracks a
third path, the blob file `sha256:aa.tar.gz` that `processImage` wrote into the
working directory of the repository, which is not a file of the image. -/
theorem createRepo_commits_blob_file :
    ((sampleMerger [refA]).createRepo gitWorld (Machine.fresh sampleImages false).start).1
      = .ok () ∧
    ((sampleMerger [refA]).createRepo gitWorld
      (Machine.fresh sampleImages false).start).2.state.branches.lookup "imageA"
      = some [("sha256:aa.tar.gz", "blob-aa"), ("a", "1"), ("shared", "X")] ∧
    finalFiles [layerA] = [("a", "1"), ("shared", "X")] ∧
    (finalFiles [layerA]).lookup "sha256:aa.tar.gz" = none ∧
    Op.createFile "/tmp/m/git/sha256:aa.tar.gz" ∈
      ((sampleMerger [refA]).createRepo gitWorld (Machine.fresh sampleImages false).start).2.trace
    := by
  decide

/-- C10. The references `ubuntu:16.04` and `ubuntu:18.04` are distinct and have
the same `Name()`, hence the same branch name.  `createRepo` creates the branch
for the first and fails on the second, because the branch exists; `MergeImages`
fails with that error. -/
theorem createRepo_same_repository_collides :
    refUbuntu16 ≠ refUbuntu18 ∧ refUbuntu16.Name = refUbuntu18.Name ∧
    ((sampleMerger [refUbuntu16, refUbuntu18]).createRepo gitWorld
      (Machine.fresh [(refUbuntu16, [layerA]), (refUbuntu18, [layerB])] false).start).1
      = .error "processing image: creating branch: exit status 128" ∧
    (MergeImages gitWorld "merged:latest" ["ubuntu:16.04", "ubuntu:18.04"]
      (Machine.fresh [(refUbuntu16, [layerA]), (refUbuntu18, [layerB])] false).start).1
      = .error "create repo: processing image: creating branch: exit status 128" := by
  decide

/-! ## One commit per layer -/

theorem processLayers_trace (w : World σ) (git dir : String) :
    ∀ (layers : List LayerInfo) (r : Run σ),
      (processLayers w git dir layers r).1 = .ok () →
      (processLayers w git dir layers r).2.trace =
        r.trace ++ layers.flatMap (layerOps git dir) := by
  intro layers
  induction layers with
  | nil =>
    intro r _
    simp [processLayers]
  | cons li rest ih =>
    intro r
    unfold processLayers
    simp only [issue]
    repeat' split
    all_goals
      intro h
      try simp at h
    rw [ih _ h]
    simp only [Prod.mk.injEq] at *
    casesm* _ ∧ _
    subst_vars
    simp [layerOps, commitMessage]

theorem filter_commit_layerOps (git dir : String) (layers : List LayerInfo) :
    (layers.flatMap (layerOps git dir)).filter Op.isCommit =
      layers.map (fun li => Op.gitCommit git ("\x27" ++ li.digest ++ "\x27")) := by
  induction layers with
  | nil => rfl
  | cons li rest ih =>
    simp only [List.flatMap_cons, List.filter_append, ih, List.map_cons]
    simp [layerOps, Op.isCommit, List.filter]

/-- C6 (amended). A successful `processImage` of an image with the layers
`l_1, ..., l_k` has issued, after creating the branch and opening the image,
for each layer in order: fetch, write and unpack the blob, `git add -A`, and one
commit; so exactly `k` commits, the `j`-th after the unpacking and staging of
`l_j` and before `l_(j+1)` is touched.  The message of the `j`-th commit is the
digest string of `l_j` enclosed in single quotes. -/
theorem processImage_commits (w : World σ) (a : ImageReference) (git dir : String)
    (r : Run σ) (h : (processImage w a git dir r).1 = .ok ()) :
    ∃ layers,
      (w.newImage a (w.run (.gitCheckoutNew dir a.Name "master") r.state).2).1 = .ok layers ∧
      (processImage w a git dir r).2.trace =
        r.trace ++ [.gitCheckoutNew dir a.Name "master", .newImage a, .newImageSource a] ++
          layers.flatMap (layerOps git dir) ∧
      ((processImage w a git dir r).2.trace.drop r.trace.length).filter Op.isCommit =
        layers.map (fun li => Op.gitCommit git ("\x27" ++ li.digest ++ "\x27")) := by
  have key : ∃ layers,
      (w.newImage a (w.run (.gitCheckoutNew dir a.Name "master") r.state).2).1 = .ok layers ∧
      (processImage w a git dir r).2.trace =
        r.trace ++ [.gitCheckoutNew dir a.Name "master", .newImage a, .newImageSource a] ++
          layers.flatMap (layerOps git dir) := by
    revert h
    unfold processImage
    simp only [issue]
    cases h0 : (w.run (.gitCheckoutNew dir a.Name "master") r.state).1 with
    | some e => simp
    | none =>
      dsimp only
      rcases hn : w.newImage a (w.run (.gitCheckoutNew dir a.Name "master") r.state).2
        with ⟨x, s2⟩
      cases x with
      | error e => simp
      | ok layerInfos =>
        dsimp only
        cases h3 : (w.run (.newImageSource a) s2).1 with
        | some e => simp
        | none =>
          dsimp only
          intro h
          refine ⟨layerInfos, rfl, ?_⟩
          rw [processLayers_trace w git dir _ _ h]
          simp
  obtain ⟨layers, h1, h2⟩ := key
  refine ⟨layers, h1, h2, ?_⟩
  rw [h2, List.append_assoc, List.drop_left, List.filter_append, filter_commit_layerOps]
  simp [Op.isCommit, List.filter]

theorem processImage_commits_witness :
    (processImage gitWorld refA "/tmp/m/git" "/tmp/m/git" ⟨initRepo sampleImages, []⟩).1
      = .ok () ∧
    (processImage gitWorld refA "/tmp/m/git" "/tmp/m/git"
      ⟨initRepo sampleImages, []⟩).2.trace =
      [.gitCheckoutNew "/tmp/m/git" "imageA" "master", .newImage refA, .newImageSource refA,
       .getBlob layerA.info, .createFile "/tmp/m/git/sha256:aa.tar.gz",
       .copyBlob layerA.info "/tmp/m/git/sha256:aa.tar.gz",
       .tarExtract "/tmp/m/git/sha256:aa.tar.gz" "/tmp/m/git", .gitAddAll "/tmp/m/git",
       .gitCommit "/tmp/m/git" "\x27sha256:aa\x27"] := by
  obtain ⟨layers, h1, h2, _⟩ := processImage_commits gitWorld refA "/tmp/m/git" "/tmp/m/git"
    ⟨initRepo sampleImages, []⟩ (by decide)
  have hl : layers = [layerA.info] := (Except.ok.inj h1).symm
  subst hl
  exact ⟨by decide, h2.trans (by decide)⟩

/-- C6, as first stated, fails: the commit made for the layer with digest
`sha256:aa` has the message `'sha256:aa'`, quotes included, and no commit with
the bare digest as message is made. -/
theorem commit_message_is_quoted :
    (processImage gitWorld refA "/tmp/m/git" "/tmp/m/git" ⟨initRepo sampleImages, []⟩).1
      = .ok () ∧
    (processImage gitWorld refA "/tmp/m/git" "/tmp/m/git"
      ⟨initRepo sampleImages, []⟩).2.trace.filter Op.isCommit =
      [.gitCommit "/tmp/m/git" "\x27sha256:aa\x27"] ∧
    layerA.info.digest = "sha256:aa" ∧
    Op.gitCommit "/tmp/m/git" layerA.info.digest ∉
      (processImage gitWorld refA "/tmp/m/git" "/tmp/m/git" ⟨initRepo sampleImages, []⟩).2.trace
    := by
  decide

/-! ## Unpacking failures -/

theorem issue_unpackSilent (w : World σ) (c : Op) (r : Run σ)
    (hc : ∀ x y, c ≠ Op.tarExtract x y) : issue w.unpackSilent c r = issue w c r := by
  cases c <;> first | rfl | exact absurd rfl (hc _ _)

theorem issue_unpackSilent_tar (w : World σ) (x y : String) (r : Run σ) :
    (issue w.unpackSilent (.tarExtract x y) r).2 = (issue w (.tarExtract x y) r).2 := rfl

theorem processLayers_unpackSilent (w : World σ) (git dir : String) :
    ∀ (layers : List LayerInfo) (r : Run σ),
      processLayers w.unpackSilent git dir layers r = processLayers w git dir layers r := by
  intro layers
  induction layers with
  | nil =>
    intro r
    rfl
  | cons li rest ih =>
    intro r
    unfold processLayers
    rw [issue_unpackSilent w (.getBlob li) r (by simp)]
    simp only [issue_unpackSilent_tar, ih]
    have e2 : ∀ q, issue w.unpackSilent (.createFile (blobPath dir li)) q =
        issue w (.createFile (blobPath dir li)) q := fun q => issue_unpackSilent w _ q (by simp)
    have e3 : ∀ q, issue w.unpackSilent (.copyBlob li (blobPath dir li)) q =
        issue w (.copyBlob li (blobPath dir li)) q := fun q => issue_unpackSilent w _ q (by simp)
    have e4 : ∀ q, issue w.unpackSilent (.gitAddAll git) q = issue w (.gitAddAll git) q :=
      fun q => issue_unpackSilent w _ q (by simp)
    have e5 : ∀ q, issue w.unpackSilent (.gitCommit git (commitMessage li)) q =
        issue w (.gitCommit git (commitMessage li)) q := fun q => issue_unpackSilent w _ q (by simp)
    simp only [e2, e3, e4, e5]
    rfl

theorem processImage_unpackSilent (w : World σ) (a : ImageReference) (git dir : String)
    (r : Run σ) : processImage w.unpackSilent a git dir r = processImage w a git dir r := by
  unfold processImage
  rw [issue_unpackSilent w (.gitCheckoutNew dir a.Name "master") r (by simp)]
  have e2 : ∀ q, issue w.unpackSilent (.newImageSource a) q = issue w (.newImageSource a) q :=
    fun q => issue_unpackSilent w _ q (by simp)
  simp only [e2, processLayers_unpackSilent]
  rfl

theorem createRepoLoop_unpackSilent (w : World σ) (gitDir : String) :
    ∀ (refs : List ImageReference) (r : Run σ),
      createRepoLoop w.unpackSilent gitDir refs r = createRepoLoop w gitDir refs r := by
  intro refs
  induction refs with
  | nil =>
    intro r
    rfl
  | cons a rest ih =>
    intro r
    unfold createRepoLoop
    simp only [processImage_unpackSilent, ih]

theorem createRepo_unpackSilent (w : World σ) (m : merger) (r : Run σ) :
    m.createRepo w.unpackSilent r = m.createRepo w r := by
  unfold merger.createRepo
  rw [issue_unpackSilent w (.mkdirAll m.gitDir) r (by simp)]
  have e2 : ∀ q, issue w.unpackSilent (.gitInit m.gitDir) q = issue w (.gitInit m.gitDir) q :=
    fun q => issue_unpackSilent w _ q (by simp)
  have e3 : ∀ q, issue w.unpackSilent (.gitCommitAllowEmpty m.gitDir "\x27super-root\x27") q =
      issue w (.gitCommitAllowEmpty m.gitDir "\x27super-root\x27") q :=
    fun q => issue_unpackSilent w _ q (by simp)
  simp only [e2, e3, createRepoLoop_unpackSilent]

theorem mergeLoop_unpackSilent (w : World σ) (gitDir : String) :
    ∀ (rest : List ImageReference) (r : Run σ),
      mergeLoop w.unpackSilent gitDir rest r = mergeLoop w gitDir rest r := by
  intro rest
  induction rest with
  | nil =>
    intro r
    rfl
  | cons a rest ih =>
    intro r
    unfold mergeLoop
    rw [issue_unpackSilent w (.gitMerge gitDir a.Name "ours") r (by simp)]
    simp only [ih]

theorem merge_unpackSilent (w : World σ) (m : merger) (r : Run σ) :
    m.merge w.unpackSilent r = m.merge w r := by
  unfold merger.merge
  split
  · rfl
  · rename_i baseImg rest _
    rw [issue_unpackSilent w (.gitCheckout m.gitDir baseImg.Name) r (by simp)]
    simp only [mergeLoop_unpackSilent]

theorem createImage_unpackSilent (w : World σ) (m : merger) (r : Run σ) :
    m.createImage w.unpackSilent r = m.createImage w r := by
  unfold merger.createImage
  have e : ∀ c q, (∀ x y, c ≠ Op.tarExtract x y) →
      issue w.unpackSilent c q = issue w c q := fun c q h => issue_unpackSilent w c q h
  rw [e _ _ (by simp)]
  simp only [e (.layerFromFile (pathJoin m.buildDir "image.tar.gz")) _ (by simp),
    e .appendLayers _ (by simp), e .configFile _ (by simp),
    e (.mutateConfig "amd64") _ (by simp),
    e (.writeToFile (pathJoin m.buildDir "output.tar.gz") m.tag) _ (by simp)]

theorem loadImg_unpackSilent (w : World σ) (m : merger) (r : Run σ) :
    m.loadImg w.unpackSilent r = m.loadImg w r := by
  unfold merger.loadImg
  rw [issue_unpackSilent w (.openFile m.outputFile) r (by simp)]
  rfl

theorem parseReferencesLoop_unpackSilent (w : World σ) :
    ∀ (refs : List String) (acc : List ImageReference) (r : Run σ),
      parseReferencesLoop w.unpackSilent refs acc r = parseReferencesLoop w refs acc r := by
  intro refs
  induction refs with
  | nil =>
    intro acc r
    rfl
  | cons img rest ih =>
    intro acc r
    unfold parseReferencesLoop
    simp only [ih]
    rfl

theorem New_unpackSilent (w : World σ) (tag : String) (refs : List String) (r : Run σ) :
    New w.unpackSilent tag refs r = New w tag refs r := by
  unfold New
  have e : ∀ c q, (∀ x y, c ≠ Op.tarExtract x y) →
      issue w.unpackSilent c q = issue w c q := fun c q h => issue_unpackSilent w c q h
  simp only [parseReferences, parseReferencesLoop_unpackSilent, e .newEnvClient _ (by simp)]
  have e1 : ∀ p q, issue w.unpackSilent (.mkdir p) q = issue w (.mkdir p) q :=
    fun p q => e _ q (by simp)
  simp only [e1]
  rfl

/-- C7 (amended). A failure of `tar -xvf` is not fatal: `processImage` only logs
it.  In every world, `processImage`, `createRepo` and `MergeImages` return the
same result, leave the same state and perform the same operations as in the
world in which unpacking does the same to the files and reports no failure; the
layer is staged and committed and the later layers and stages follow. -/
theorem unpack_failure_is_ignored (w : World σ) (a : ImageReference) (git dir : String)
    (m : merger) (tag : String) (refs : List String) (r : Run σ) :
    processImage w a git dir r = processImage w.unpackSilent a git dir r ∧
    m.createRepo w r = m.createRepo w.unpackSilent r ∧
    MergeImages w tag refs r = MergeImages w.unpackSilent tag refs r := by
  refine ⟨(processImage_unpackSilent w a git dir r).symm,
    (createRepo_unpackSilent w m r).symm, ?_⟩
  unfold MergeImages
  simp only [New_unpackSilent, createRepo_unpackSilent, merge_unpackSilent,
    createImage_unpackSilent, loadImg_unpackSilent]

/-- C7, as first stated, fails: the blob of the broken image is not an archive
and unpacking it fails with `exit status 2` (the operation at index 6), yet
`processImage` succeeds and has committed the layer, and `MergeImages` on the
broken image and image A runs the merge stage and succeeds. -/
theorem unpack_failure_does_not_abort :
    (processImage gitWorld refBroken "/tmp/m/git" "/tmp/m/git"
      ⟨initRepo brokenImages, []⟩).2.trace[6]? =
      some (.tarExtract "/tmp/m/git/sha256:bad.tar.gz" "/tmp/m/git") ∧
    gitWorld.answer (initRepo brokenImages)
      (processImage gitWorld refBroken "/tmp/m/git" "/tmp/m/git"
        ⟨initRepo brokenImages, []⟩).2.trace 6 = some "exit status 2" ∧
    (processImage gitWorld refBroken "/tmp/m/git" "/tmp/m/git"
      ⟨initRepo brokenImages, []⟩).1 = .ok () ∧
    Op.gitCommit "/tmp/m/git" "\x27sha256:bad\x27" ∈
      (processImage gitWorld refBroken "/tmp/m/git" "/tmp/m/git"
        ⟨initRepo brokenImages, []⟩).2.trace ∧
    (MergeImages gitWorld "merged:latest" ["broken", "imageA"]
      (Machine.fresh brokenImages false).start).1 = .ok () ∧
    Op.gitMerge "/tmp/m/git" "imageA" "ours" ∈
      (MergeImages gitWorld "merged:latest" ["broken", "imageA"]
        (Machine.fresh brokenImages false).start).2.trace := by
  decide

end DockerMerge

